import Mathlib

set_option maxRecDepth 8000

/-! Shallow embedding of the pico75player SAG codec and its color
    quantization engine (sag2gif.go, gif2sag.go, imgcolor/imgcolor.go).
    Machine integers are modelled by `Nat`/`Int` with explicit `% 65536` /
    `% 256` where Go performs narrowing conversions; byte streams are
    `List Nat`; fallible code (error returns and runtime panics) returns
    `Option`. -/

namespace imgcolor

/-- The quadruple returned by Go's `color.Color.RGBA()`: alpha-premultiplied
    16-bit channels (each `< 65536` for a well-formed color). -/
structure RGBA16 where
  r : Nat
  g : Nat
  b : Nat
  a : Nat
deriving DecidableEq

/-- `ColorCount` from imgcolor.go: a color together with its pixel count. -/
structure ColorCount where
  color : RGBA16
  count : Nat
deriving DecidableEq

/-- `colorDistanceSquared` from imgcolor.go: squared Euclidean distance over
    the top 8 bits (`>> 8`, i.e. `/ 256`) of the R, G, B channels; alpha is
    ignored.  Go computes in `int`; the model uses `Int`. -/
def colorDistanceSquared (c1 c2 : RGBA16) : Int :=
  let rd : Int := (c1.r / 256 : Nat) - (c2.r / 256 : Nat)
  let gd : Int := (c1.g / 256 : Nat) - (c2.g / 256 : Nat)
  let bd : Int := (c1.b / 256 : Nat) - (c2.b / 256 : Nat)
  rd * rd + gd * gd + bd * bd

/-- `int(^uint(0) >> 1)`: the maximum value of Go's 64-bit `int`. -/
def maxInt : Int := 2 ^ 63 - 1

/-- The `for i, p := range palette` loop of `NearestColorIndex`, with the
    running minimum distance and minimum index passed explicitly. -/
def nearestLoop (targetColor : RGBA16) : List RGBA16 → Nat → Int → Nat → Nat
  | [], _, _, minIndex => minIndex
  | p :: rest, i, minDist, minIndex =>
    let dist := colorDistanceSquared targetColor p
    if dist < minDist then nearestLoop targetColor rest (i + 1) dist i
    else nearestLoop targetColor rest (i + 1) minDist minIndex

/-- `NearestColorIndex` from imgcolor.go. -/
def NearestColorIndex (palette : List RGBA16) (targetColor : RGBA16) : Nat :=
  nearestLoop targetColor palette 0 maxInt 0

/-- The `sort.Slice(colors, ...)` call of `ExtractPalette`.  Go's
    `sort.Slice` is an unspecified, unstable comparator sort whose guarantee
    is that the result is a permutation of the input sorted with respect to
    the comparator `colors[i].Count > colors[j].Count` (count descending
    only, no tie-break); it is modelled by insertion sort with the
    corresponding non-strict relation. -/
def sortByCountDesc (colors : List ColorCount) : List ColorCount :=
  colors.insertionSort (fun x y => y.count ≤ x.count)

/-- `ExtractPalette` from imgcolor.go.  The Go function receives the
    frequency table as a `map[color.Color]int`; converting it to a slice
    enumerates the map in unspecified (randomized) order, so the embedding
    takes that enumeration — a list of distinct colors with counts — as its
    input.  `none` models the runtime panic of
    `make([]color.Color, maxColors)` when `maxColors` is still negative
    after the clamp (every negative value other than -1). -/
def ExtractPalette (colorCount : List ColorCount) (maxColors : Int) : Option (List RGBA16) :=
  let colors := sortByCountDesc colorCount
  let mc : Int :=
    if maxColors = -1 ∨ (colors.length : Int) < maxColors then (colors.length : Int)
    else maxColors
  if mc < 0 then none
  else some ((colors.take mc.toNat).map ColorCount.color)

/-- The comparator of `sortColors` (unnamed source file, `sort.SliceStable`):
    on equal counts, ascending (R, G, B, A) 16-bit channel comparison,
    otherwise descending count. -/
def ccLess (x y : ColorCount) : Bool :=
  if x.count = y.count then
    if x.color.r ≠ y.color.r then x.color.r < y.color.r
    else if x.color.g ≠ y.color.g then x.color.g < y.color.g
    else if x.color.b ≠ y.color.b then x.color.b < y.color.b
    else x.color.a < y.color.a
  else y.count < x.count

/-- Stable insertion for `sortColors`: an element is inserted after every
    element it does not strictly precede. -/
def insertStable (c : ColorCount) : List ColorCount → List ColorCount
  | [] => [c]
  | d :: rest => if ccLess c d then c :: d :: rest else d :: insertStable c rest

/-- `sortColors` (`sort.SliceStable` with `ccLess`), modelled by stable
    insertion sort. -/
def sortColors : List ColorCount → List ColorCount
  | [] => []
  | c :: rest => insertStable c (sortColors rest)

end imgcolor

open imgcolor

/-- Model of Go's `image.Paletted`: bounds (0,0)-(width,height), the frame's
    palette, and the pixel-index store.  `ColorIndexAt` / `SetColorIndex` /
    `At` behaviour is modelled by a total function together with the bounds
    checks those methods perform. -/
@[ext] structure PFrame where
  width : Nat
  height : Nat
  palette : List RGBA16
  pixfn : Nat → Nat → Nat

/-- `image.Paletted.ColorIndexAt`: 0 outside the bounds. -/
def PFrame.colorIndexAt (f : PFrame) (x y : Nat) : Nat :=
  if x < f.width ∧ y < f.height then f.pixfn x y else 0

/-- `image.Paletted.SetColorIndex`: a no-op outside the bounds. -/
def PFrame.setColorIndex (f : PFrame) (x y c : Nat) : PFrame :=
  if x < f.width ∧ y < f.height then
    { f with pixfn := fun u v => if u = x ∧ v = y then c else f.pixfn u v }
  else f

/-- `image.NewPaletted` on the rectangle (0,0)-(w,h): zero-initialised
    pixel indices. -/
def newPaletted (w h : Nat) (pal : List RGBA16) : PFrame :=
  ⟨w, h, pal, fun _ _ => 0⟩

/-- `image.Paletted.At`: `Palette[0]` outside the bounds, otherwise the
    palette entry at the stored index.  Go panics when the stored index is
    out of range of the palette; the model totalises with a default, and
    theorems that rely on the entry add a well-indexedness hypothesis. -/
def frameAt (f : PFrame) (x y : Nat) : RGBA16 :=
  if x < f.width ∧ y < f.height then f.palette.getD (f.pixfn x y) ⟨0, 0, 0, 0⟩
  else f.palette.getD 0 ⟨0, 0, 0, 0⟩

/-- `applyPalette` from gif2sag.go: re-index every pixel of `frame` against
    `palette` via `NearestColorIndex`; the Go narrowing `uint8(index)` is
    `% 256`.  The source color is always read from the original `frame`. -/
def applyPalette (frame : PFrame) (palette : List RGBA16) : PFrame :=
  (List.range frame.height).foldl (fun fr y =>
    (List.range frame.width).foldl (fun fr2 x =>
      fr2.setColorIndex x y (NearestColorIndex palette (frameAt frame x y) % 256)) fr)
    (newPaletted frame.width frame.height palette)

/-- Iteration count of `for x := 0; x < width; x += 8`. -/
def numBlocks (width : Nat) : Nat := (width + 7) / 8

/-- Length of the pixel block starting at column `x`: `width - x` for a
    final partial block (`x+8 > width`), otherwise 8.  This is the length
    computed both by the encoder's `break` and by `readPixelBlock`. -/
def blockLen (width x : Nat) : Nat := if width < x + 8 then width - x else 8

/-- One iteration (`bit`) of the inner block loop of `writeSAGFile`.  The Go
    loop `break`s at `x+bit >= width`; since that exit condition is monotone
    in `bit`, skipping each iteration past it is equivalent. -/
def encBlockStep (prev : Option PFrame) (f : PFrame) (width x y : Nat)
    (st : Nat × List Nat) (bit : Nat) : Nat × List Nat :=
  if width ≤ x + bit then st
  else
    let currentPixel := f.colorIndexAt (x + bit) y
    let ib :=
      match prev with
      | some p => if p.colorIndexAt (x + bit) y = currentPixel then st.1 ||| (1 <<< (7 - bit)) else st.1
      | none => st.1
    (ib, st.2 ++ [currentPixel])

/-- The identical-mask byte and the pixel block that `writeSAGFile` emits for
    the block starting at column `x` of row `y` (the `for bit := 0; bit < 8`
    loop). -/
def encodeBlockData (prev : Option PFrame) (f : PFrame) (width x y : Nat) : Nat × List Nat :=
  (List.range 8).foldl (encBlockStep prev f width x y) (0, [])

/-- Bytes written for the blocks of one row from column `x` on, with `n`
    loop iterations remaining (`for x := 0; x < width; x += 8`); each block
    contributes its mask byte followed by its pixel block. -/
def encodeRowFrom (prev : Option PFrame) (f : PFrame) (width y : Nat) : Nat → Nat → List Nat
  | 0, _ => []
  | n + 1, x =>
    let d := encodeBlockData prev f width x y
    (d.1 :: d.2) ++ encodeRowFrom prev f width y n (x + 8)

/-- Bytes written for the rows of one frame from row `y` on, with `n` rows
    remaining (`for y := 0; y < int(height); y++`). -/
def encodeFrameRows (prev : Option PFrame) (f : PFrame) (width : Nat) : Nat → Nat → List Nat
  | 0, _ => []
  | n + 1, y =>
    encodeRowFrom prev f width y (numBlocks width) 0 ++ encodeFrameRows prev f width n (y + 1)

/-- The frame-data section of `writeSAGFile`: each frame's rows, threading
    the previous frame (`nil` for frame 0, `frames[i-1]` afterwards). -/
def encodeFrames (width height : Nat) : Option PFrame → List PFrame → List Nat
  | _, [] => []
  | prev, f :: rest =>
    encodeFrameRows prev f width height 0 ++ encodeFrames width height (some f) rest

/-- The 768 palette bytes of the header: Go writes the top 8 bits of each
    channel of `palette[i]` at offsets `3i..3i+2` of a zero-filled
    `[768]byte`; for at most 256 entries these writes fill exactly the first
    `3 * length` bytes in order, the rest staying zero. -/
def paletteBytes (palette : List RGBA16) : List Nat :=
  (palette.map (fun c => [c.r / 256, c.g / 256, c.b / 256])).flatten
    ++ List.replicate (768 - 3 * palette.length) 0

/-- The 780 header bytes emitted by `binary.Write(file, binary.BigEndian,
    header)`: signature "SAG" (0x53 0x41 0x47), version 1, then width,
    height, frameCount, frameDelay as big-endian 16-bit fields, then the
    palette bytes. -/
def headerBytes (width height frameCount frameDelay : Nat) (palette : List RGBA16) : List Nat :=
  [83, 65, 71, 1,
   width / 256, width % 256,
   height / 256, height % 256,
   frameCount / 256, frameCount % 256,
   frameDelay / 256, frameDelay % 256] ++ paletteBytes palette

/-- `writeSAGFile` from gif2sag.go, producing the byte stream written to the
    file.  The `uint16(...)` narrowings are `% 65536` (for the `int`-typed
    delay, `Int.emod`, matching Go's conversion for every `int64` value).
    `none` models the runtime panics: `frames[0]` / `delays[0]` on an empty
    slice, and the out-of-range write `header.ColorPalette[768]` when the
    palette has more than 256 entries (all three occur before any byte is
    written). -/
def writeSAGFile (frames : List PFrame) (delays : List Int) (palette : List RGBA16) :
    Option (List Nat) :=
  match frames, delays with
  | [], _ => none
  | _ :: _, [] => none
  | f0 :: rest, d0 :: _ =>
    if 256 < palette.length then none
    else
      let width := f0.width % 65536
      let height := f0.height % 65536
      let frameCount := (f0 :: rest).length % 65536
      let frameDelay := ((d0 * 10) % 65536).toNat
      some (headerBytes width height frameCount frameDelay palette
            ++ encodeFrames width height none (f0 :: rest))

/-- Big-endian 16-bit field starting at offset `i` of `s`. -/
def be16 (s : List Nat) (i : Nat) : Nat := s.getD i 0 * 256 + s.getD (i + 1) 0

/-- `SAGHeader` from sag2gif.go, with the parsed field values. -/
structure SAGHeader where
  signature : List Nat
  version : Nat
  width : Nat
  height : Nat
  frameCount : Nat
  frameDelay : Nat
  colorPalette : List Nat
deriving DecidableEq

/-- `readSAGHeader`: `binary.Read(file, binary.BigEndian, &header)` reads
    exactly 780 bytes (`io.ReadFull` semantics) and fails exactly when fewer
    are available.  The signature is parsed but never compared to "SAG". -/
def readSAGHeader (s : List Nat) : Option (SAGHeader × List Nat) :=
  if s.length < 780 then none
  else some (⟨s.take 3, s.getD 3 0, be16 s 4, be16 s 6, be16 s 8, be16 s 10,
              (s.drop 12).take 768⟩, s.drop 780)

/-- `extractPalette` from sag2gif.go: 256 `color.RGBA` entries (A = 0xff)
    built from the header's palette bytes.  `RGBA16` records the `RGBA()`
    quadruple, so the 8-bit channel `v` appears as `v * 257` (`v * 0x101`). -/
def extractPalette (header : SAGHeader) : List RGBA16 :=
  (List.range 256).map (fun i =>
    ⟨header.colorPalette.getD (i * 3) 0 * 257,
     header.colorPalette.getD (i * 3 + 1) 0 * 257,
     header.colorPalette.getD (i * 3 + 2) 0 * 257, 65535⟩)

/-- `skipIdenticalByte`: `file.Read(make([]byte, 1))` with byte, count and
    error all discarded — it consumes at most one byte and never fails. -/
def skipIdenticalByte (s : List Nat) : List Nat := s.drop 1

/-- `readPixelBlock`: allocates a zero-filled block of `blockLen` bytes and
    performs one `file.Read` into it.  A read at end of file reports an
    error; a short read (stream shorter than the block) fills only a prefix,
    leaves the zero fill in place and reports no error, exactly like
    `os.File.Read` on a regular file — and the caller ignores the count. -/
def readPixelBlock (width x : Nat) (s : List Nat) : Option (List Nat × List Nat) :=
  let k := blockLen width x
  match s with
  | [] => none
  | _ => some (s.take k ++ List.replicate (k - s.length) 0, s.drop k)

/-- `applyPixelBlock`: writes the block's bytes at columns `x, x+1, ...` of
    row `y`, skipping columns at or past `width` (the Go loop over `bit` is
    rendered as recursion with the column advancing alongside the block). -/
def applyPixelBlock (frame : PFrame) (pixelBlock : List Nat) (x y width : Nat) : PFrame :=
  match pixelBlock with
  | [] => frame
  | p :: restPB =>
    applyPixelBlock (if x < width then frame.setColorIndex x y p else frame) restPB (x + 1) y width

/-- One block of the decode loop of `readSAGFrames`: skip the identical
    byte, read the pixel block, apply it. -/
def readFrameBlock (width x y : Nat) (frame : PFrame) (s : List Nat) :
    Option (PFrame × List Nat) :=
  match readPixelBlock width x (skipIdenticalByte s) with
  | none => none
  | some (pb, s') => some (applyPixelBlock frame pb x y width, s')

/-- Decode loop over the blocks of one row (`for x := 0; x < width; x += 8`),
    with `n` iterations remaining. -/
def readFrameBlocks (width y : Nat) : Nat → Nat → PFrame → List Nat → Option (PFrame × List Nat)
  | 0, _, frame, s => some (frame, s)
  | n + 1, x, frame, s =>
    match readFrameBlock width x y frame s with
    | none => none
    | some (frame', s') => readFrameBlocks width y n (x + 8) frame' s'

/-- Decode loop over the rows of one frame (`for y := 0; y < height; y++`),
    with `n` rows remaining. -/
def readFrameRows (width : Nat) : Nat → Nat → PFrame → List Nat → Option (PFrame × List Nat)
  | 0, _, frame, s => some (frame, s)
  | n + 1, y, frame, s =>
    match readFrameBlocks width y (numBlocks width) 0 frame s with
    | none => none
    | some (frame', s') => readFrameRows width n (y + 1) frame' s'

/-- Decode loop over the frames (`for i := 0; i < frameCount; i++`), each
    starting from a fresh `image.NewPaletted`. -/
def readFrames (width height : Nat) (pal : List RGBA16) : Nat → List Nat → Option (List PFrame × List Nat)
  | 0, s => some ([], s)
  | n + 1, s =>
    match readFrameRows width height 0 (newPaletted width height pal) s with
    | none => none
    | some (frame, s') =>
      match readFrames width height pal n s' with
      | none => none
      | some (frames, s'') => some (frame :: frames, s'')

/-- `readSAGFrames` from sag2gif.go: decode `frameCount` frames and produce
    the delay list, every entry `frameDelay / 10`. -/
def readSAGFrames (header : SAGHeader) (s : List Nat) : Option (List PFrame × List Int) :=
  match readFrames header.width header.height (extractPalette header) header.frameCount s with
  | none => none
  | some (frames, _) =>
    some (frames, List.replicate header.frameCount ((header.frameDelay : Int) / 10))

/-- `readSAGFile` on a byte stream: parse the header, then the frames. -/
def readSAGFile (s : List Nat) : Option (List PFrame × List Int) :=
  match readSAGHeader s with
  | none => none
  | some (header, restBytes) => readSAGFrames header restBytes

/-- Default frame used with `List.getD`. -/
def frameDefault : PFrame := ⟨0, 0, [], fun _ _ => 0⟩

/-! ### Concrete inputs used by witnesses and counterexamples -/

def c1Frame : PFrame := ⟨1, 1, [], fun _ _ => 0⟩

def c1w0 : PFrame := ⟨2, 2, [], fun _ y => y⟩

def c1w1 : PFrame := ⟨2, 2, [], fun x _ => x⟩

def c2prev : PFrame := ⟨3, 1, [], fun x _ => x⟩

def c2f : PFrame := ⟨3, 1, [], fun x _ => if x = 1 then 1 else 5⟩

def c3black : RGBA16 := ⟨0, 0, 0, 65535⟩

def c3white : RGBA16 := ⟨65535, 65535, 65535, 65535⟩

def c3grey : RGBA16 := ⟨2570, 2570, 2570, 65535⟩

def c4cc : ColorCount := ⟨⟨0, 0, 0, 0⟩, 1⟩

def c4w1 : ColorCount := ⟨⟨257, 257, 257, 65535⟩, 1⟩

def c4w2 : ColorCount := ⟨⟨514, 514, 514, 65535⟩, 5⟩

def c5A : ColorCount := ⟨⟨0, 0, 0, 0⟩, 1⟩

def c5B : ColorCount := ⟨⟨65535, 0, 0, 65535⟩, 1⟩

def c5wA : ColorCount := ⟨⟨0, 0, 0, 65535⟩, 3⟩

def c5wB : ColorCount := ⟨⟨65535, 65535, 0, 65535⟩, 3⟩

def c6stream : List Nat := headerBytes 8 1 1 0 [] ++ [0, 1, 2, 3]

def c8fA : PFrame := ⟨1, 1, [], fun _ _ => 0⟩

def c8fB : PFrame := ⟨2, 2, [], fun _ _ => 1⟩

def c9red : RGBA16 := ⟨65535, 0, 0, 65535⟩

def c9blue : RGBA16 := ⟨0, 0, 65535, 65535⟩

def c9Frame : PFrame := ⟨1, 1, [c9blue], fun _ _ => 0⟩

def c9Pal : List RGBA16 := List.replicate 257 c9red ++ [c9blue]

def c9wF : PFrame := ⟨1, 1, [⟨0, 0, 0, 65535⟩], fun _ _ => 0⟩

def c9wP : List RGBA16 := [⟨65535, 65535, 65535, 65535⟩, ⟨0, 0, 0, 65535⟩]

def c10F : PFrame := ⟨1, 1, [], fun _ _ => 0⟩

/-! ## Basic frame-store lemmas -/

theorem setColorIndex_width (f : PFrame) (x y c : Nat) :
    (f.setColorIndex x y c).width = f.width := by
  unfold PFrame.setColorIndex; split <;> rfl

theorem setColorIndex_height (f : PFrame) (x y c : Nat) :
    (f.setColorIndex x y c).height = f.height := by
  unfold PFrame.setColorIndex; split <;> rfl

theorem setColorIndex_palette (f : PFrame) (x y c : Nat) :
    (f.setColorIndex x y c).palette = f.palette := by
  unfold PFrame.setColorIndex; split <;> rfl

theorem setColorIndex_pixfn (f : PFrame) (x y c u v : Nat) :
    (f.setColorIndex x y c).pixfn u v =
      if x < f.width ∧ y < f.height ∧ u = x ∧ v = y then c else f.pixfn u v := by
  unfold PFrame.setColorIndex
  by_cases h : x < f.width ∧ y < f.height
  · rw [if_pos h]
    by_cases h2 : u = x ∧ v = y
    · simp [h, h2]
    · simp only [h2]
      have : ¬ (x < f.width ∧ y < f.height ∧ u = x ∧ v = y) := by tauto
      simp [this, h2]
  · have : ¬ (x < f.width ∧ y < f.height ∧ u = x ∧ v = y) := by tauto
    simp [h, this]

theorem colorIndexAt_setColorIndex (f : PFrame) (x y c u v : Nat) :
    (f.setColorIndex x y c).colorIndexAt u v =
      if u = x ∧ v = y ∧ x < f.width ∧ y < f.height then c else f.colorIndexAt u v := by
  unfold PFrame.colorIndexAt
  rw [setColorIndex_width, setColorIndex_height, setColorIndex_pixfn]
  by_cases hb : u < f.width ∧ v < f.height
  · rw [if_pos hb, if_pos hb]
    by_cases h2 : u = x ∧ v = y
    · by_cases h3 : x < f.width ∧ y < f.height
      · have : x < f.width ∧ y < f.height ∧ u = x ∧ v = y := by tauto
        simp [this, h2, h3]
      · have : ¬ (x < f.width ∧ y < f.height ∧ u = x ∧ v = y) := by tauto
        have h4 : ¬ (u = x ∧ v = y ∧ x < f.width ∧ y < f.height) := by tauto
        simp [this, h4]
    · have : ¬ (x < f.width ∧ y < f.height ∧ u = x ∧ v = y) := by tauto
      have h4 : ¬ (u = x ∧ v = y ∧ x < f.width ∧ y < f.height) := by tauto
      simp [this, h4]
  · rw [if_neg hb, if_neg hb]
    have h4 : ¬ (u = x ∧ v = y ∧ x < f.width ∧ y < f.height) := by
      intro ⟨h1, h2, h3, h5⟩; exact hb ⟨h1 ▸ h3, h2 ▸ h5⟩
    simp [h4]

theorem colorIndexAt_out_left (f : PFrame) (u v : Nat) (h : ¬ u < f.width) :
    f.colorIndexAt u v = 0 := by
  unfold PFrame.colorIndexAt
  rw [if_neg]; tauto

theorem colorIndexAt_out_bottom (f : PFrame) (u v : Nat) (h : ¬ v < f.height) :
    f.colorIndexAt u v = 0 := by
  unfold PFrame.colorIndexAt
  rw [if_neg]; tauto

theorem colorIndexAt_newPaletted (w h : Nat) (pal : List RGBA16) (u v : Nat) :
    (newPaletted w h pal).colorIndexAt u v = 0 := by
  unfold PFrame.colorIndexAt newPaletted
  split <;> rfl

/-! ## Encoder block characterization -/

theorem blockLen_le_eight (width x : Nat) : blockLen width x ≤ 8 := by
  unfold blockLen; split <;> omega

theorem blockLen_pos (width x : Nat) (h : x < width) : 0 < blockLen width x := by
  unfold blockLen; split <;> omega

theorem encBlockFold_spec (prev : Option PFrame) (f : PFrame) (width x y : Nat) :
    ∀ n, n ≤ 8 →
      let M := (List.range n).foldl (encBlockStep prev f width x y) (0, [])
      M.2 = (List.range (min n (blockLen width x))).map (fun bit => f.colorIndexAt (x + bit) y)
      ∧ M.1 < 256
      ∧ (∀ b, b < 8 →
          (M.1.testBit (7 - b) = true ↔
            b < min n (blockLen width x) ∧
              ∃ p, prev = some p ∧ p.colorIndexAt (x + b) y = f.colorIndexAt (x + b) y)) := by
  intro n
  induction n with
  | zero =>
    intro _
    refine ⟨by simp, by norm_num, ?_⟩
    intro b _
    simp [Nat.zero_testBit]
  | succ n ih =>
    intro hn8
    have hn : n ≤ 8 := by omega
    obtain ⟨ih2, ih1, ihb⟩ := ih hn
    have hk8 : blockLen width x ≤ 8 := blockLen_le_eight width x
    simp only [List.range_succ, List.foldl_append, List.foldl_cons, List.foldl_nil]
    set M := (List.range n).foldl (encBlockStep prev f width x y) (0, []) with hM
    by_cases hg : width ≤ x + n
    · -- loop body skipped: the state is unchanged, and the covered range is full
      have hkn : blockLen width x ≤ n := by
        unfold blockLen
        split <;> omega
      have hmin : min (n + 1) (blockLen width x) = min n (blockLen width x) := by omega
      rw [encBlockStep, if_pos hg, hmin]
      exact ⟨ih2, ih1, ihb⟩
    · -- loop body runs: bit n is appended to the pixel block
      push_neg at hg
      have hkn : n < blockLen width x := by
        unfold blockLen
        split <;> omega
      have hminn : min n (blockLen width x) = n := by omega
      have hmins : min (n + 1) (blockLen width x) = n + 1 := by omega
      rw [hminn] at ih2 ihb
      rw [encBlockStep, if_neg (by omega), hmins]
      have hsnd : (M.2 ++ [f.colorIndexAt (x + n) y])
          = (List.range (n + 1)).map (fun bit => f.colorIndexAt (x + bit) y) := by
        rw [ih2, List.range_succ, List.map_append, List.map_cons, List.map_nil]
      match hp : prev with
      | none =>
        refine ⟨hsnd, ih1, ?_⟩
        intro b hb
        constructor
        · intro ht
          obtain ⟨hlt, p, hps, _⟩ := (ihb b hb).mp ht
          exact absurd hps (by simp)
        · rintro ⟨-, p, hps, -⟩
          exact absurd hps (by simp)
      | some p =>
        dsimp only
        by_cases heq : p.colorIndexAt (x + n) y = f.colorIndexAt (x + n) y
        · rw [if_pos heq]
          have hshift : (1 <<< (7 - n) : Nat) = 2 ^ (7 - n) := Nat.one_shiftLeft (7 - n)
          refine ⟨hsnd, ?_, ?_⟩
          · rw [hshift]
            have h1 : M.1 < 2 ^ 8 := ih1
            have h2 : (2 : Nat) ^ (7 - n) < 2 ^ 8 :=
              Nat.pow_lt_pow_right (by norm_num) (by omega)
            exact Nat.or_lt_two_pow h1 h2
          · intro b hb
            rw [hshift, Nat.testBit_or]
            constructor
            · intro ht
              rcases Bool.or_eq_true_iff.mp ht with h | h
              · obtain ⟨hlt, q, hq, hqe⟩ := (ihb b hb).mp h
                exact ⟨by omega, q, hq, hqe⟩
              · have hbn : b = n := by
                  by_contra hne
                  have : (7 : Nat) - n ≠ 7 - b := by omega
                  rw [Nat.testBit_two_pow_of_ne this] at h
                  exact absurd h (by simp)
                subst hbn
                exact ⟨by omega, p, rfl, heq⟩
            · rintro ⟨hlt, q, hq, hqe⟩
              have hpq : q = p := by injection hq.symm
              subst hpq
              by_cases hbn : b = n
              · subst hbn
                rw [Nat.testBit_two_pow_self]
                simp
              · have hbl : b < n := by omega
                have : M.1.testBit (7 - b) = true := (ihb b hb).mpr ⟨by omega, q, rfl, hqe⟩
                rw [this]
                simp
        · rw [if_neg heq]
          refine ⟨hsnd, ih1, ?_⟩
          intro b hb
          rw [ihb b hb]
          constructor
          · rintro ⟨hlt, q, hq, hqe⟩
            exact ⟨by omega, q, hq, hqe⟩
          · rintro ⟨hlt, q, hq, hqe⟩
            have hpq : q = p := by injection hq.symm
            subst hpq
            refine ⟨?_, q, rfl, hqe⟩
            by_cases hbn : b = n
            · subst hbn; exact absurd hqe heq
            · omega

theorem encodeBlockData_snd (prev : Option PFrame) (f : PFrame) (width x y : Nat) :
    (encodeBlockData prev f width x y).2
      = (List.range (blockLen width x)).map (fun bit => f.colorIndexAt (x + bit) y) := by
  have h := (encBlockFold_spec prev f width x y 8 (le_refl 8)).1
  have hmin : min 8 (blockLen width x) = blockLen width x := by
    have := blockLen_le_eight width x; omega
  rw [hmin] at h
  exact h

theorem encodeBlockData_fst_lt (prev : Option PFrame) (f : PFrame) (width x y : Nat) :
    (encodeBlockData prev f width x y).1 < 256 :=
  (encBlockFold_spec prev f width x y 8 (le_refl 8)).2.1

theorem encodeBlockData_fst_testBit (prev : Option PFrame) (f : PFrame) (width x y : Nat)
    (b : Nat) (hb : b < 8) :
    ((encodeBlockData prev f width x y).1.testBit (7 - b) = true ↔
      b < blockLen width x ∧
        ∃ p, prev = some p ∧ p.colorIndexAt (x + b) y = f.colorIndexAt (x + b) y) := by
  have h := (encBlockFold_spec prev f width x y 8 (le_refl 8)).2.2 b hb
  have hmin : min 8 (blockLen width x) = blockLen width x := by
    have := blockLen_le_eight width x; omega
  rw [hmin] at h
  exact h

theorem encodeBlockData_fst_none (f : PFrame) (width x y : Nat) :
    (encodeBlockData none f width x y).1 = 0 := by
  have h : ∀ (l : List Nat) (st : Nat × List Nat),
      (l.foldl (encBlockStep none f width x y) st).1 = st.1 := by
    intro l
    induction l with
    | nil => intro st; rfl
    | cons a l ih =>
      intro st
      rw [List.foldl_cons, ih]
      unfold encBlockStep
      split <;> rfl
  exact h (List.range 8) (0, [])

theorem encodeBlockData_snd_length (prev : Option PFrame) (f : PFrame) (width x y : Nat) :
    (encodeBlockData prev f width x y).2.length = blockLen width x := by
  rw [encodeBlockData_snd, List.length_map, List.length_range]

/-! ## Pixel-block application -/

theorem applyPixelBlock_width (pb : List Nat) (f : PFrame) (x y w : Nat) :
    (applyPixelBlock f pb x y w).width = f.width := by
  induction pb generalizing f x with
  | nil => rfl
  | cons p rest ih =>
    unfold applyPixelBlock
    rw [ih]
    split
    · exact setColorIndex_width f x y p
    · rfl

theorem applyPixelBlock_height (pb : List Nat) (f : PFrame) (x y w : Nat) :
    (applyPixelBlock f pb x y w).height = f.height := by
  induction pb generalizing f x with
  | nil => rfl
  | cons p rest ih =>
    unfold applyPixelBlock
    rw [ih]
    split
    · exact setColorIndex_height f x y p
    · rfl

theorem applyPixelBlock_palette (pb : List Nat) (f : PFrame) (x y w : Nat) :
    (applyPixelBlock f pb x y w).palette = f.palette := by
  induction pb generalizing f x with
  | nil => rfl
  | cons p rest ih =>
    unfold applyPixelBlock
    rw [ih]
    split
    · exact setColorIndex_palette f x y p
    · rfl

theorem applyPixelBlock_colorIndexAt (pb : List Nat) (f : PFrame) (x y w u v : Nat)
    (hfw : f.width = w) (hy : y < f.height) :
    (applyPixelBlock f pb x y w).colorIndexAt u v =
      if v = y ∧ x ≤ u ∧ u < x + pb.length ∧ u < w then pb.getD (u - x) 0
      else f.colorIndexAt u v := by
  induction pb generalizing f x with
  | nil =>
    have hne : ¬ (v = y ∧ x ≤ u ∧ u < x + ([] : List Nat).length ∧ u < w) := by
      rintro ⟨-, h1, h2, -⟩; simp only [List.length_nil] at h2; omega
    simp only [applyPixelBlock, hne, if_false]
  | cons p rest ih =>
    unfold applyPixelBlock
    simp only [List.length_cons]
    set f' := if x < w then f.setColorIndex x y p else f with hf'
    have hfw' : f'.width = w := by
      rw [hf']; split
      · rw [setColorIndex_width]; exact hfw
      · exact hfw
    have hy' : y < f'.height := by
      rw [hf']; split
      · rw [setColorIndex_height]; exact hy
      · exact hy
    rw [ih f' (x + 1) hfw' hy']
    have hfc : f'.colorIndexAt u v =
        if u = x ∧ v = y ∧ x < w then p else f.colorIndexAt u v := by
      rw [hf']
      by_cases hxw : x < w
      · rw [if_pos hxw, colorIndexAt_setColorIndex]
        by_cases h2 : u = x ∧ v = y
        · have hL : u = x ∧ v = y ∧ x < f.width ∧ y < f.height :=
            ⟨h2.1, h2.2, by omega, hy⟩
          have hR : u = x ∧ v = y ∧ x < w := ⟨h2.1, h2.2, hxw⟩
          rw [if_pos hL, if_pos hR]
        · have hL : ¬ (u = x ∧ v = y ∧ x < f.width ∧ y < f.height) := by tauto
          have hR : ¬ (u = x ∧ v = y ∧ x < w) := by tauto
          rw [if_neg hL, if_neg hR]
      · rw [if_neg hxw]
        have hR : ¬ (u = x ∧ v = y ∧ x < w) := by tauto
        rw [if_neg hR]
    rw [hfc]
    by_cases hC : v = y ∧ x + 1 ≤ u ∧ u < x + 1 + rest.length ∧ u < w
    · have hG : v = y ∧ x ≤ u ∧ u < x + (rest.length + 1) ∧ u < w := by
        obtain ⟨h1, h2, h3, h4⟩ := hC; exact ⟨h1, by omega, by omega, h4⟩
      rw [if_pos hC, if_pos hG]
      have hux : u - x = (u - (x + 1)) + 1 := by omega
      rw [hux, List.getD_cons_succ]
    · rw [if_neg hC]
      by_cases hE : u = x ∧ v = y ∧ x < w
      · have hG : v = y ∧ x ≤ u ∧ u < x + (rest.length + 1) ∧ u < w := by
          obtain ⟨h1, h2, h3⟩ := hE; subst h1; exact ⟨h2, le_refl _, by omega, h3⟩
        rw [if_pos hE, if_pos hG]
        have hux : u - x = 0 := by omega
        rw [hux, List.getD_cons_zero]
      · have hG : ¬ (v = y ∧ x ≤ u ∧ u < x + (rest.length + 1) ∧ u < w) := by
          rintro ⟨h1, h2, h3, h4⟩
          rcases Nat.lt_or_ge x u with hlt | hge
          · exact hC ⟨h1, by omega, by omega, h4⟩
          · exact hE ⟨by omega, h1, by omega⟩
        rw [if_neg hE, if_neg hG]

/-! ## Decode of an encoded stream -/

theorem readPixelBlock_exact (width x : Nat) (pb restS : List Nat)
    (hlen : pb.length = blockLen width x) (hne : pb ≠ []) :
    readPixelBlock width x (pb ++ restS) = some (pb, restS) := by
  obtain ⟨q, qs, rfl⟩ : ∃ q qs, pb = q :: qs := by
    cases pb with
    | nil => exact absurd rfl hne
    | cons q qs => exact ⟨q, qs, rfl⟩
  have htake : ((q :: qs) ++ restS).take (blockLen width x) = q :: qs := by
    rw [← hlen, List.take_left]
  have hdrop : ((q :: qs) ++ restS).drop (blockLen width x) = restS := by
    rw [← hlen, List.drop_left]
  have hrep : blockLen width x - ((q :: qs) ++ restS).length = 0 := by
    rw [List.length_append, ← hlen]; omega
  unfold readPixelBlock
  simp only [List.cons_append] at htake hdrop hrep ⊢
  rw [htake, hdrop, hrep, List.replicate_zero, List.append_nil]

theorem readFrameBlock_encoded (prev : Option PFrame) (t f : PFrame) (width x y : Nat)
    (hx : x < width) (restS : List Nat) :
    readFrameBlock width x y f
        (((encodeBlockData prev t width x y).1 :: (encodeBlockData prev t width x y).2) ++ restS)
      = some (applyPixelBlock f (encodeBlockData prev t width x y).2 x y width, restS) := by
  unfold readFrameBlock
  have hskip : skipIdenticalByte
      (((encodeBlockData prev t width x y).1 :: (encodeBlockData prev t width x y).2) ++ restS)
      = (encodeBlockData prev t width x y).2 ++ restS := by
    unfold skipIdenticalByte
    rw [List.cons_append, List.drop_succ_cons, List.drop_zero]
  have hne : (encodeBlockData prev t width x y).2 ≠ [] := by
    intro hnil
    have hlen0 := congrArg List.length hnil
    rw [encodeBlockData_snd_length, List.length_nil] at hlen0
    have := blockLen_pos width x hx
    omega
  rw [hskip, readPixelBlock_exact width x _ restS (encodeBlockData_snd_length prev t width x y) hne]

theorem getD_map_range (g : Nat → Nat) (k i : Nat) (h : i < k) :
    ((List.range k).map g).getD i 0 = g i := by
  rw [List.getD_eq_getElem?_getD, List.getElem?_map, List.getElem?_range h]
  rfl

theorem encodeRowFrom_succ (prev : Option PFrame) (t : PFrame) (width y n x : Nat) :
    encodeRowFrom prev t width y (n + 1) x
      = ((encodeBlockData prev t width x y).1 :: (encodeBlockData prev t width x y).2)
        ++ encodeRowFrom prev t width y n (x + 8) := rfl

theorem readFrameBlocks_encoded (prev : Option PFrame) (t : PFrame) (width y : Nat) :
    ∀ (n x : Nat) (f : PFrame) (restS : List Nat),
      (∀ j, j < n → x + 8 * j < width) →
      f.width = width → y < f.height →
      ∃ f', readFrameBlocks width y n x f (encodeRowFrom prev t width y n x ++ restS)
              = some (f', restS)
        ∧ f'.width = f.width ∧ f'.height = f.height ∧ f'.palette = f.palette
        ∧ ∀ u v, f'.colorIndexAt u v =
            if v = y ∧ x ≤ u ∧ u < x + 8 * n ∧ u < width then t.colorIndexAt u y
            else f.colorIndexAt u v := by
  intro n
  induction n with
  | zero =>
    intro x f restS hj hfw hyh
    refine ⟨f, ?_, rfl, rfl, rfl, ?_⟩
    · simp [readFrameBlocks, encodeRowFrom]
    · intro u v
      rw [if_neg]
      rintro ⟨-, h1, h2, -⟩
      omega
  | succ n ih =>
    intro x f restS hj hfw hyh
    have hx : x < width := by have := hj 0 (by omega); omega
    have hf1w : (applyPixelBlock f (encodeBlockData prev t width x y).2 x y width).width = width := by
      rw [applyPixelBlock_width]; exact hfw
    have hf1h : (applyPixelBlock f (encodeBlockData prev t width x y).2 x y width).height
        = f.height := applyPixelBlock_height _ f x y width
    have hf1p : (applyPixelBlock f (encodeBlockData prev t width x y).2 x y width).palette
        = f.palette := applyPixelBlock_palette _ f x y width
    obtain ⟨f', hrun, hw', hh', hp', hpt⟩ :=
      ih (x + 8) (applyPixelBlock f (encodeBlockData prev t width x y).2 x y width) restS
        (fun j hjn => by have := hj (j + 1) (by omega); omega) hf1w
        (by rw [hf1h]; exact hyh)
    refine ⟨f', ?_, by rw [hw', hf1w, hfw], by rw [hh', hf1h], by rw [hp', hf1p], ?_⟩
    · have hstream : encodeRowFrom prev t width y (n + 1) x ++ restS
          = ((encodeBlockData prev t width x y).1 :: (encodeBlockData prev t width x y).2)
            ++ (encodeRowFrom prev t width y n (x + 8) ++ restS) := by
        rw [encodeRowFrom_succ, List.append_assoc]
      rw [hstream]
      have hblock := readFrameBlock_encoded prev t f width x y hx
        (encodeRowFrom prev t width y n (x + 8) ++ restS)
      unfold readFrameBlocks
      rw [hblock]
      exact hrun
    · intro u v
      rw [hpt u v,
        applyPixelBlock_colorIndexAt (encodeBlockData prev t width x y).2 f x y width u v hfw hyh]
      have hbl8 := blockLen_le_eight width x
      by_cases hT : v = y ∧ x ≤ u ∧ u < x + 8 * (n + 1) ∧ u < width
      · rw [if_pos hT]
        obtain ⟨hTv, hTx, hTu, hTw⟩ := hT
        by_cases hU : x + 8 ≤ u
        · rw [if_pos ⟨hTv, hU, by omega, hTw⟩]
        · rw [if_neg (by rintro ⟨-, h8, -, -⟩; omega)]
          have hblk : u - x < blockLen width x := by
            unfold blockLen; split <;> omega
          have hcond : v = y ∧ x ≤ u
              ∧ u < x + (encodeBlockData prev t width x y).2.length ∧ u < width := by
            rw [encodeBlockData_snd_length]
            exact ⟨hTv, hTx, by omega, hTw⟩
          rw [if_pos hcond, encodeBlockData_snd, getD_map_range _ _ _ hblk]
          have hxu : x + (u - x) = u := by omega
          rw [hxu]
      · rw [if_neg hT]
        rw [if_neg (by rintro ⟨h1, h2, h3, h4⟩; exact hT ⟨h1, by omega, by omega, h4⟩)]
        rw [if_neg (by
          rintro ⟨h1, h2, h3, h4⟩
          rw [encodeBlockData_snd_length] at h3
          exact hT ⟨h1, h2, by omega, h4⟩)]

theorem encodeFrameRows_succ (prev : Option PFrame) (t : PFrame) (width n y : Nat) :
    encodeFrameRows prev t width (n + 1) y
      = encodeRowFrom prev t width y (numBlocks width) 0
        ++ encodeFrameRows prev t width n (y + 1) := rfl

theorem readFrameRows_encoded (prev : Option PFrame) (t : PFrame) (width : Nat) :
    ∀ (n y : Nat) (f : PFrame) (restS : List Nat),
      f.width = width → y + n ≤ f.height →
      ∃ f', readFrameRows width n y f (encodeFrameRows prev t width n y ++ restS)
              = some (f', restS)
        ∧ f'.width = f.width ∧ f'.height = f.height ∧ f'.palette = f.palette
        ∧ ∀ u v, f'.colorIndexAt u v =
            if y ≤ v ∧ v < y + n ∧ u < width then t.colorIndexAt u v
            else f.colorIndexAt u v := by
  intro n
  induction n with
  | zero =>
    intro y f restS hfw hyn
    refine ⟨f, ?_, rfl, rfl, rfl, ?_⟩
    · simp [readFrameRows, encodeFrameRows]
    · intro u v
      rw [if_neg]
      rintro ⟨h1, h2, -⟩
      omega
  | succ n ih =>
    intro y f restS hfw hyn
    obtain ⟨f1, hrun1, h1w, h1h, h1p, hpt1⟩ :=
      readFrameBlocks_encoded prev t width y (numBlocks width) 0 f
        (encodeFrameRows prev t width n (y + 1) ++ restS)
        (fun j hj => by unfold numBlocks at hj; omega)
        hfw (by omega)
    obtain ⟨f', hrun, hw', hh', hp', hpt⟩ :=
      ih (y + 1) f1 restS (by rw [h1w, hfw]) (by rw [h1h]; omega)
    refine ⟨f', ?_, by rw [hw', h1w], by rw [hh', h1h], by rw [hp', h1p], ?_⟩
    · have hstream : encodeFrameRows prev t width (n + 1) y ++ restS
          = encodeRowFrom prev t width y (numBlocks width) 0
            ++ (encodeFrameRows prev t width n (y + 1) ++ restS) := by
        rw [encodeFrameRows_succ, List.append_assoc]
      rw [hstream]
      unfold readFrameRows
      rw [hrun1]
      exact hrun
    · intro u v
      rw [hpt u v, hpt1 u v]
      have h8nb : width ≤ 8 * numBlocks width := by unfold numBlocks; omega
      by_cases hT : y ≤ v ∧ v < y + (n + 1) ∧ u < width
      · rw [if_pos hT]
        obtain ⟨hT1, hT2, hT3⟩ := hT
        by_cases hU : y + 1 ≤ v
        · rw [if_pos ⟨hU, by omega, hT3⟩]
        · have hvy : v = y := by omega
          rw [if_neg (by rintro ⟨h1, -, -⟩; omega),
            if_pos ⟨hvy, by omega, by omega, hT3⟩, hvy]
      · rw [if_neg hT]
        rw [if_neg (by rintro ⟨h1, h2, h3⟩; exact hT ⟨by omega, by omega, h3⟩)]
        rw [if_neg (by rintro ⟨h1, -, -, h4⟩; exact hT ⟨by omega, by omega, h4⟩)]

theorem encodeFrames_cons (width height : Nat) (prev : Option PFrame) (t : PFrame)
    (rest : List PFrame) :
    encodeFrames width height prev (t :: rest)
      = encodeFrameRows prev t width height 0 ++ encodeFrames width height (some t) rest := rfl

theorem readFrames_encoded (width height : Nat) (dpal : List RGBA16) :
    ∀ (fs : List PFrame) (prev : Option PFrame) (restS : List Nat),
      (∀ t ∈ fs, t.width = width ∧ t.height = height) →
      ∃ dfs, readFrames width height dpal fs.length
               (encodeFrames width height prev fs ++ restS) = some (dfs, restS)
        ∧ dfs.length = fs.length
        ∧ ∀ i, i < fs.length → ∀ u v,
            (dfs.getD i frameDefault).colorIndexAt u v
              = ((fs.getD i frameDefault)).colorIndexAt u v := by
  intro fs
  induction fs with
  | nil =>
    intro prev restS hdims
    refine ⟨[], ?_, rfl, ?_⟩
    · simp [readFrames, encodeFrames]
    · intro i hi
      omega
  | cons t rest ih =>
    intro prev restS hdims
    have htw : t.width = width := (hdims t (by simp)).1
    have hth : t.height = height := (hdims t (by simp)).2
    obtain ⟨f1, hrun1, h1w, h1h, h1p, hpt1⟩ :=
      readFrameRows_encoded prev t width height 0 (newPaletted width height dpal)
        (encodeFrames width height (some t) rest ++ restS) rfl (by simp [newPaletted])
    obtain ⟨dfs, hrun, hlen, hpt⟩ :=
      ih (some t) restS (fun u hu => hdims u (by simp [hu]))
    refine ⟨f1 :: dfs, ?_, by simp [hlen], ?_⟩
    · have hstream : encodeFrames width height prev (t :: rest) ++ restS
          = encodeFrameRows prev t width height 0
            ++ (encodeFrames width height (some t) rest ++ restS) := by
        rw [encodeFrames_cons, List.append_assoc]
      rw [hstream]
      show readFrames width height dpal (rest.length + 1) _ = _
      unfold readFrames
      rw [hrun1]
      dsimp only
      rw [hrun]
    · intro i hi u v
      match i with
      | 0 =>
        simp only [List.getD_cons_zero]
        rw [hpt1 u v]
        by_cases hT : 0 ≤ v ∧ v < 0 + height ∧ u < width
        · rw [if_pos hT]
        · rw [if_neg hT, colorIndexAt_newPaletted]
          rcases Nat.lt_or_ge v height with hv | hv
          · have hu : ¬ u < width := by
              intro hu; exact hT ⟨Nat.zero_le v, by omega, hu⟩
            rw [colorIndexAt_out_left t u v (by omega)]
          · rw [colorIndexAt_out_bottom t u v (by omega)]
      | i + 1 =>
        simp only [List.getD_cons_succ]
        exact hpt i (by simpa using hi) u v

/-! ## Header layout -/

theorem paletteBytes_length (pal : List RGBA16) (h : pal.length ≤ 256) :
    (paletteBytes pal).length = 768 := by
  unfold paletteBytes
  have hfl : ((pal.map (fun c => [c.r / 256, c.g / 256, c.b / 256])).flatten).length
      = 3 * pal.length := by
    induction pal with
    | nil => rfl
    | cons c rest ih =>
      rw [List.map_cons, List.flatten_cons, List.length_append, ih (by simp at h ⊢; omega)]
      simp [List.length_cons]
      ring
  rw [List.length_append, hfl, List.length_replicate]
  omega

theorem headerBytes_length (w h fc fd : Nat) (pal : List RGBA16) (hp : pal.length ≤ 256) :
    (headerBytes w h fc fd pal).length = 780 := by
  unfold headerBytes
  rw [List.length_append, paletteBytes_length pal hp]
  rfl

theorem readSAGHeader_encoded (w h fc fd : Nat) (pal : List RGBA16) (body : List Nat)
    (hp : pal.length ≤ 256) :
    ∃ hdr, readSAGHeader (headerBytes w h fc fd pal ++ body) = some (hdr, body)
      ∧ hdr.width = w ∧ hdr.height = h ∧ hdr.frameCount = fc ∧ hdr.frameDelay = fd := by
  have hlen : (headerBytes w h fc fd pal).length = 780 := headerBytes_length w h fc fd pal hp
  have hlen' : (headerBytes w h fc fd pal ++ body).length = 780 + body.length := by
    rw [List.length_append, hlen]
  have hget : ∀ i, i < 12 →
      (headerBytes w h fc fd pal ++ body).getD i 0
        = ([83, 65, 71, 1, w / 256, w % 256, h / 256, h % 256,
            fc / 256, fc % 256, fd / 256, fd % 256] : List Nat).getD i 0 := by
    intro i hi
    unfold headerBytes
    rw [List.append_assoc, List.getD_append]
    simp only [List.length_cons, List.length_nil]
    omega
  have hdrop : (headerBytes w h fc fd pal ++ body).drop 780 = body := by
    rw [← hlen, List.drop_left]
  unfold readSAGHeader
  rw [if_neg (by omega), hdrop]
  refine ⟨_, rfl, ?_, ?_, ?_, ?_⟩
  · show be16 (headerBytes w h fc fd pal ++ body) 4 = w
    unfold be16
    rw [hget 4 (by omega), hget 5 (by omega)]
    show w / 256 * 256 + w % 256 = w
    omega
  · show be16 (headerBytes w h fc fd pal ++ body) 6 = h
    unfold be16
    rw [hget 6 (by omega), hget 7 (by omega)]
    show h / 256 * 256 + h % 256 = h
    omega
  · show be16 (headerBytes w h fc fd pal ++ body) 8 = fc
    unfold be16
    rw [hget 8 (by omega), hget 9 (by omega)]
    show fc / 256 * 256 + fc % 256 = fc
    omega
  · show be16 (headerBytes w h fc fd pal ++ body) 10 = fd
    unfold be16
    rw [hget 10 (by omega), hget 11 (by omega)]
    show fd / 256 * 256 + fd % 256 = fd
    omega

theorem writeSAGFile_some (f0 : PFrame) (rest : List PFrame) (d0 : Int) (drest : List Int)
    (pal : List RGBA16) (hp : pal.length ≤ 256) :
    writeSAGFile (f0 :: rest) (d0 :: drest) pal
      = some (headerBytes (f0.width % 65536) (f0.height % 65536)
                ((f0 :: rest).length % 65536) ((d0 * 10) % 65536).toNat pal
              ++ encodeFrames (f0.width % 65536) (f0.height % 65536) none (f0 :: rest)) := by
  unfold writeSAGFile
  dsimp only
  rw [if_neg (by omega)]

theorem roundTripAux (f0 : PFrame) (rest : List PFrame) (d0 : Int) (drest : List Int)
    (pal : List RGBA16)
    (hpal : pal.length ≤ 256)
    (hdim : ∀ f ∈ f0 :: rest, f.width = f0.width ∧ f.height = f0.height)
    (hw : f0.width < 65536) (hh : f0.height < 65536)
    (hn : (f0 :: rest).length < 65536)
    (hd0 : 0 ≤ d0) (hd : d0 * 10 < 65536) :
    ∃ bs dfr dd,
      writeSAGFile (f0 :: rest) (d0 :: drest) pal = some bs
      ∧ readSAGFile bs = some (dfr, dd)
      ∧ dfr.length = (f0 :: rest).length
      ∧ (∀ i, i < (f0 :: rest).length → ∀ x y,
          (dfr.getD i frameDefault).colorIndexAt x y
            = ((f0 :: rest).getD i frameDefault).colorIndexAt x y)
      ∧ dd = List.replicate (f0 :: rest).length d0 := by
  have hwm : f0.width % 65536 = f0.width := Nat.mod_eq_of_lt hw
  have hhm : f0.height % 65536 = f0.height := Nat.mod_eq_of_lt hh
  have hnm : (f0 :: rest).length % 65536 = (f0 :: rest).length := Nat.mod_eq_of_lt hn
  have hd10 : (0 : Int) ≤ d0 * 10 := by positivity
  have hdm : (d0 * 10) % 65536 = d0 * 10 := Int.emod_eq_of_lt hd10 hd
  have henc := writeSAGFile_some f0 rest d0 drest pal hpal
  rw [hwm, hhm, hnm, hdm] at henc
  obtain ⟨hdr, hparse, hdw, hdh, hdfc, hdfd⟩ :=
    readSAGHeader_encoded f0.width f0.height (f0 :: rest).length (d0 * 10).toNat pal
      (encodeFrames f0.width f0.height none (f0 :: rest)) hpal
  obtain ⟨dfs, hframes, hlen, hpt⟩ :=
    readFrames_encoded f0.width f0.height (extractPalette hdr) (f0 :: rest) none []
      (fun t ht => hdim t ht)
  refine ⟨_, dfs, List.replicate (f0 :: rest).length d0, henc, ?_, hlen, hpt, rfl⟩
  unfold readSAGFile
  rw [hparse]
  dsimp only
  unfold readSAGFrames
  rw [hdw, hdh, hdfc, hdfd]
  rw [show encodeFrames f0.width f0.height none (f0 :: rest)
      = encodeFrames f0.width f0.height none (f0 :: rest) ++ [] from (List.append_nil _).symm,
    hframes]
  dsimp only
  have hdel : (((d0 * 10).toNat : Nat) : Int) / 10 = d0 := by
    rw [Int.toNat_of_nonneg hd10]
    exact Int.mul_ediv_cancel d0 (by norm_num)
  rw [hdel]

/-! ## Nearest-color search -/

namespace imgcolor

theorem colorDistanceSquared_nonneg (c1 c2 : RGBA16) : 0 ≤ colorDistanceSquared c1 c2 := by
  unfold colorDistanceSquared
  dsimp only
  exact add_nonneg (add_nonneg (mul_self_nonneg _) (mul_self_nonneg _)) (mul_self_nonneg _)

theorem colorDistanceSquared_self (c : RGBA16) : colorDistanceSquared c c = 0 := by
  unfold colorDistanceSquared
  dsimp only
  simp

theorem colorDistanceSquared_eq_zero_iff (c1 c2 : RGBA16) :
    colorDistanceSquared c1 c2 = 0 ↔
      (c1.r / 256 = c2.r / 256 ∧ c1.g / 256 = c2.g / 256 ∧ c1.b / 256 = c2.b / 256) := by
  unfold colorDistanceSquared
  dsimp only
  constructor
  · intro h
    have hr := mul_self_nonneg ((c1.r / 256 : Nat) - (c2.r / 256 : Nat) : Int)
    have hg := mul_self_nonneg ((c1.g / 256 : Nat) - (c2.g / 256 : Nat) : Int)
    have hb := mul_self_nonneg ((c1.b / 256 : Nat) - (c2.b / 256 : Nat) : Int)
    have hr0 : ((c1.r / 256 : Nat) - (c2.r / 256 : Nat) : Int) = 0 := by
      have : ((c1.r / 256 : Nat) - (c2.r / 256 : Nat) : Int)
          * ((c1.r / 256 : Nat) - (c2.r / 256 : Nat) : Int) = 0 := by nlinarith
      exact mul_self_eq_zero.mp this
    have hg0 : ((c1.g / 256 : Nat) - (c2.g / 256 : Nat) : Int) = 0 := by
      have : ((c1.g / 256 : Nat) - (c2.g / 256 : Nat) : Int)
          * ((c1.g / 256 : Nat) - (c2.g / 256 : Nat) : Int) = 0 := by nlinarith
      exact mul_self_eq_zero.mp this
    have hb0 : ((c1.b / 256 : Nat) - (c2.b / 256 : Nat) : Int) = 0 := by
      have : ((c1.b / 256 : Nat) - (c2.b / 256 : Nat) : Int)
          * ((c1.b / 256 : Nat) - (c2.b / 256 : Nat) : Int) = 0 := by nlinarith
      exact mul_self_eq_zero.mp this
    refine ⟨?_, ?_, ?_⟩ <;> omega
  · rintro ⟨hr, hg, hb⟩
    rw [hr, hg, hb]
    simp

theorem colorDistanceSquared_congr (c p q : RGBA16) (h : colorDistanceSquared p q = 0) :
    colorDistanceSquared c p = colorDistanceSquared c q := by
  obtain ⟨hr, hg, hb⟩ := (colorDistanceSquared_eq_zero_iff p q).mp h
  unfold colorDistanceSquared
  dsimp only
  rw [hr, hg, hb]

theorem colorDistanceSquared_lt_maxInt (c1 c2 : RGBA16)
    (h1 : c1.r < 65536 ∧ c1.g < 65536 ∧ c1.b < 65536)
    (h2 : c2.r < 65536 ∧ c2.g < 65536 ∧ c2.b < 65536) :
    colorDistanceSquared c1 c2 < maxInt := by
  obtain ⟨h1r, h1g, h1b⟩ := h1
  obtain ⟨h2r, h2g, h2b⟩ := h2
  unfold colorDistanceSquared maxInt
  dsimp only
  have b1r : (c1.r / 256 : Nat) ≤ 255 := by omega
  have b2r : (c2.r / 256 : Nat) ≤ 255 := by omega
  have b1g : (c1.g / 256 : Nat) ≤ 255 := by omega
  have b2g : (c2.g / 256 : Nat) ≤ 255 := by omega
  have b1b : (c1.b / 256 : Nat) ≤ 255 := by omega
  have b2b : (c2.b / 256 : Nat) ≤ 255 := by omega
  have hrd : ((c1.r / 256 : Nat) - (c2.r / 256 : Nat) : Int)
      * ((c1.r / 256 : Nat) - (c2.r / 256 : Nat) : Int) ≤ 255 * 255 := by
    have l1 : ((c1.r / 256 : Nat) : Int) ≤ 255 := by exact_mod_cast b1r
    have l2 : ((c2.r / 256 : Nat) : Int) ≤ 255 := by exact_mod_cast b2r
    have l3 : (0 : Int) ≤ ((c1.r / 256 : Nat) : Int) := Int.ofNat_nonneg _
    have l4 : (0 : Int) ≤ ((c2.r / 256 : Nat) : Int) := Int.ofNat_nonneg _
    nlinarith
  have hgd : ((c1.g / 256 : Nat) - (c2.g / 256 : Nat) : Int)
      * ((c1.g / 256 : Nat) - (c2.g / 256 : Nat) : Int) ≤ 255 * 255 := by
    have l1 : ((c1.g / 256 : Nat) : Int) ≤ 255 := by exact_mod_cast b1g
    have l2 : ((c2.g / 256 : Nat) : Int) ≤ 255 := by exact_mod_cast b2g
    have l3 : (0 : Int) ≤ ((c1.g / 256 : Nat) : Int) := Int.ofNat_nonneg _
    have l4 : (0 : Int) ≤ ((c2.g / 256 : Nat) : Int) := Int.ofNat_nonneg _
    nlinarith
  have hbd : ((c1.b / 256 : Nat) - (c2.b / 256 : Nat) : Int)
      * ((c1.b / 256 : Nat) - (c2.b / 256 : Nat) : Int) ≤ 255 * 255 := by
    have l1 : ((c1.b / 256 : Nat) : Int) ≤ 255 := by exact_mod_cast b1b
    have l2 : ((c2.b / 256 : Nat) : Int) ≤ 255 := by exact_mod_cast b2b
    have l3 : (0 : Int) ≤ ((c1.b / 256 : Nat) : Int) := Int.ofNat_nonneg _
    have l4 : (0 : Int) ≤ ((c2.b / 256 : Nat) : Int) := Int.ofNat_nonneg _
    nlinarith
  have hM : (2 : Int) ^ 63 - 1 = 9223372036854775807 := by norm_num
  rw [hM]
  linarith

theorem nearestLoop_spec (c : RGBA16) :
    ∀ (l : List RGBA16) (i : Nat) (md : Int) (mi : Nat),
      (nearestLoop c l i md mi = mi ∧
        ∀ j, j < l.length → md ≤ colorDistanceSquared c (l.getD j ⟨0,0,0,0⟩))
      ∨ (∃ j, j < l.length ∧ nearestLoop c l i md mi = i + j
          ∧ colorDistanceSquared c (l.getD j ⟨0,0,0,0⟩) < md
          ∧ (∀ j', j' < l.length →
              colorDistanceSquared c (l.getD j ⟨0,0,0,0⟩)
                ≤ colorDistanceSquared c (l.getD j' ⟨0,0,0,0⟩))
          ∧ (∀ j', j' < j →
              colorDistanceSquared c (l.getD j ⟨0,0,0,0⟩)
                < colorDistanceSquared c (l.getD j' ⟨0,0,0,0⟩))) := by
  intro l
  induction l with
  | nil =>
    intro i md mi
    left
    exact ⟨rfl, fun j hj => absurd hj (by simp)⟩
  | cons p rest ih =>
    intro i md mi
    unfold nearestLoop
    dsimp only
    by_cases hlt : colorDistanceSquared c p < md
    · rw [if_pos hlt]
      rcases ih (i + 1) (colorDistanceSquared c p) i with ⟨heq, hall⟩ | ⟨j, hj, heq, hjlt, hmin, hfirst⟩
      · right
        refine ⟨0, by simp, by rw [heq]; omega, by simpa using hlt, ?_, ?_⟩
        · intro j' hj'
          match j' with
          | 0 => simp
          | j' + 1 =>
            simp only [List.getD_cons_succ, List.getD_cons_zero]
            exact hall j' (by simpa using hj')
        · intro j' hj'
          omega
      · right
        refine ⟨j + 1, by simpa using hj, by rw [heq]; omega, ?_, ?_, ?_⟩
        · simp only [List.getD_cons_succ]
          omega
        · intro j' hj'
          match j' with
          | 0 =>
            simp only [List.getD_cons_succ, List.getD_cons_zero]
            omega
          | j' + 1 =>
            simp only [List.getD_cons_succ]
            exact hmin j' (by simpa using hj')
        · intro j' hj'
          match j' with
          | 0 =>
            simp only [List.getD_cons_succ, List.getD_cons_zero]
            omega
          | j' + 1 =>
            simp only [List.getD_cons_succ]
            exact hfirst j' (by omega)
    · rw [if_neg hlt]
      rcases ih (i + 1) md mi with ⟨heq, hall⟩ | ⟨j, hj, heq, hjlt, hmin, hfirst⟩
      · left
        refine ⟨heq, ?_⟩
        intro j hj
        match j with
        | 0 =>
          simp only [List.getD_cons_zero]
          omega
        | j + 1 =>
          simp only [List.getD_cons_succ]
          exact hall j (by simpa using hj)
      · right
        refine ⟨j + 1, by simpa using hj, by rw [heq]; omega, ?_, ?_, ?_⟩
        · simp only [List.getD_cons_succ]
          omega
        · intro j' hj'
          match j' with
          | 0 =>
            simp only [List.getD_cons_succ, List.getD_cons_zero]
            omega
          | j' + 1 =>
            simp only [List.getD_cons_succ]
            exact hmin j' (by simpa using hj')
        · intro j' hj'
          match j' with
          | 0 =>
            simp only [List.getD_cons_succ, List.getD_cons_zero]
            omega
          | j' + 1 =>
            simp only [List.getD_cons_succ]
            exact hfirst j' (by omega)

theorem NearestColorIndex_spec (pal : List RGBA16) (c : RGBA16) (hne : pal ≠ [])
    (hbound : ∀ p ∈ pal, colorDistanceSquared c p < maxInt) :
    NearestColorIndex pal c < pal.length
    ∧ (∀ j, j < pal.length →
        colorDistanceSquared c (pal.getD (NearestColorIndex pal c) ⟨0,0,0,0⟩)
          ≤ colorDistanceSquared c (pal.getD j ⟨0,0,0,0⟩))
    ∧ (∀ j, j < NearestColorIndex pal c →
        colorDistanceSquared c (pal.getD (NearestColorIndex pal c) ⟨0,0,0,0⟩)
          < colorDistanceSquared c (pal.getD j ⟨0,0,0,0⟩)) := by
  have h0 : 0 < pal.length := by
    cases pal with
    | nil => exact absurd rfl hne
    | cons p rest => simp
  rcases nearestLoop_spec c pal 0 maxInt 0 with ⟨heq, hall⟩ | ⟨j, hj, heq, hjlt, hmin, hfirst⟩
  · exfalso
    have hmem : pal.getD 0 ⟨0,0,0,0⟩ ∈ pal := by
      cases pal with
      | nil => exact absurd rfl hne
      | cons p rest => simp [List.getD_cons_zero]
    have h1 := hall 0 h0
    have h2 := hbound _ hmem
    omega
  · have hidx : NearestColorIndex pal c = j := by
      unfold NearestColorIndex
      rw [heq]
      omega
    rw [hidx]
    exact ⟨hj, hmin, hfirst⟩

end imgcolor

/-! ## Quantization idempotence machinery -/

theorem getD_mem_of_lt {α : Type} (l : List α) (n : Nat) (d : α) (h : n < l.length) :
    l.getD n d ∈ l := by
  rw [List.getD_eq_getElem?_getD, List.getElem?_eq_getElem h, Option.getD_some]
  exact List.getElem_mem h

namespace imgcolor

theorem nearest_reapply_eq (pal : List RGBA16) (c : RGBA16) (hne : pal ≠ [])
    (hpalb : ∀ p ∈ pal, p.r < 65536 ∧ p.g < 65536 ∧ p.b < 65536)
    (hcb : c.r < 65536 ∧ c.g < 65536 ∧ c.b < 65536) :
    NearestColorIndex pal (pal.getD (NearestColorIndex pal c) ⟨0,0,0,0⟩)
      = NearestColorIndex pal c := by
  have hboundc : ∀ p ∈ pal, colorDistanceSquared c p < maxInt :=
    fun p hp => colorDistanceSquared_lt_maxInt c p hcb (hpalb p hp)
  obtain ⟨hi1lt, hi1min, hi1first⟩ := NearestColorIndex_spec pal c hne hboundc
  set i1 := NearestColorIndex pal c with hi1
  set q := pal.getD i1 ⟨0,0,0,0⟩ with hq
  have hqmem : q ∈ pal := getD_mem_of_lt pal i1 ⟨0,0,0,0⟩ hi1lt
  have hqb : q.r < 65536 ∧ q.g < 65536 ∧ q.b < 65536 := hpalb q hqmem
  have hboundq : ∀ p ∈ pal, colorDistanceSquared q p < maxInt :=
    fun p hp => colorDistanceSquared_lt_maxInt q p hqb (hpalb p hp)
  obtain ⟨hi2lt, hi2min, hi2first⟩ := NearestColorIndex_spec pal q hne hboundq
  set i2 := NearestColorIndex pal q with hi2
  have hD2i1 : colorDistanceSquared q (pal.getD i1 ⟨0,0,0,0⟩) = 0 := by
    rw [← hq]
    exact colorDistanceSquared_self q
  have hD2i2 : colorDistanceSquared q (pal.getD i2 ⟨0,0,0,0⟩) = 0 := by
    have h1 := hi2min i1 hi1lt
    have h2 := colorDistanceSquared_nonneg q (pal.getD i2 ⟨0,0,0,0⟩)
    omega
  rcases Nat.lt_trichotomy i2 i1 with hlt | heq | hgt
  · exfalso
    have hcongr : colorDistanceSquared c q
        = colorDistanceSquared c (pal.getD i2 ⟨0,0,0,0⟩) :=
      colorDistanceSquared_congr c q (pal.getD i2 ⟨0,0,0,0⟩) hD2i2
    have h1 := hi1first i2 hlt
    omega
  · exact heq
  · exfalso
    have h2 := hi2first i1 hgt
    omega

end imgcolor

theorem foldRowSet_dims (pal : List RGBA16) (frame : PFrame) (y : Nat) (l : List Nat) :
    ∀ fr : PFrame,
      (l.foldl (fun fr2 x =>
          fr2.setColorIndex x y (NearestColorIndex pal (frameAt frame x y) % 256)) fr).width
        = fr.width
      ∧ (l.foldl (fun fr2 x =>
          fr2.setColorIndex x y (NearestColorIndex pal (frameAt frame x y) % 256)) fr).height
        = fr.height
      ∧ (l.foldl (fun fr2 x =>
          fr2.setColorIndex x y (NearestColorIndex pal (frameAt frame x y) % 256)) fr).palette
        = fr.palette := by
  induction l with
  | nil => intro fr; exact ⟨rfl, rfl, rfl⟩
  | cons a l ih =>
    intro fr
    simp only [List.foldl_cons]
    obtain ⟨h1, h2, h3⟩ :=
      ih (fr.setColorIndex a y (NearestColorIndex pal (frameAt frame a y) % 256))
    refine ⟨?_, ?_, ?_⟩
    · rw [h1, setColorIndex_width]
    · rw [h2, setColorIndex_height]
    · rw [h3, setColorIndex_palette]

theorem foldRowSet_pixfn (pal : List RGBA16) (frame : PFrame) (y : Nat) :
    ∀ (m : Nat) (fr : PFrame) (u v : Nat),
      ((List.range m).foldl (fun fr2 x =>
          fr2.setColorIndex x y (NearestColorIndex pal (frameAt frame x y) % 256)) fr).pixfn u v
        = if u < m ∧ u < fr.width ∧ v = y ∧ y < fr.height
          then NearestColorIndex pal (frameAt frame u y) % 256
          else fr.pixfn u v := by
  intro m
  induction m with
  | zero =>
    intro fr u v
    rw [List.range_zero]
    simp only [List.foldl_nil]
    rw [if_neg]
    rintro ⟨h, -⟩
    omega
  | succ m ih =>
    intro fr u v
    rw [List.range_succ, List.foldl_append, List.foldl_cons, List.foldl_nil, setColorIndex_pixfn]
    obtain ⟨hw, hh, -⟩ := foldRowSet_dims pal frame y (List.range m) fr
    rw [hw, hh, ih fr u v]
    by_cases h1 : m < fr.width ∧ y < fr.height ∧ u = m ∧ v = y
    · rw [if_pos h1]
      obtain ⟨h1a, h1b, h1c, h1d⟩ := h1
      have hT : u < m + 1 ∧ u < fr.width ∧ v = y ∧ y < fr.height := by
        subst h1c; exact ⟨by omega, h1a, h1d, h1b⟩
      rw [if_pos hT, h1c]
    · rw [if_neg h1]
      by_cases h2 : u < m ∧ u < fr.width ∧ v = y ∧ y < fr.height
      · rw [if_pos h2]
        have hT : u < m + 1 ∧ u < fr.width ∧ v = y ∧ y < fr.height := by
          obtain ⟨h2a, h2b, h2c, h2d⟩ := h2
          exact ⟨by omega, h2b, h2c, h2d⟩
        rw [if_pos hT]
      · rw [if_neg h2]
        rw [if_neg]
        rintro ⟨hTa, hTb, hTc, hTd⟩
        by_cases hum : u = m
        · exact h1 ⟨by omega, hTd, hum, hTc⟩
        · exact h2 ⟨by omega, hTb, hTc, hTd⟩

theorem foldRowsSet_dims (pal : List RGBA16) (frame : PFrame) (l : List Nat) :
    ∀ fr : PFrame,
      (l.foldl (fun fr y =>
          (List.range frame.width).foldl (fun fr2 x =>
            fr2.setColorIndex x y (NearestColorIndex pal (frameAt frame x y) % 256)) fr) fr).width
        = fr.width
      ∧ (l.foldl (fun fr y =>
          (List.range frame.width).foldl (fun fr2 x =>
            fr2.setColorIndex x y (NearestColorIndex pal (frameAt frame x y) % 256)) fr) fr).height
        = fr.height
      ∧ (l.foldl (fun fr y =>
          (List.range frame.width).foldl (fun fr2 x =>
            fr2.setColorIndex x y (NearestColorIndex pal (frameAt frame x y) % 256)) fr) fr).palette
        = fr.palette := by
  induction l with
  | nil => intro fr; exact ⟨rfl, rfl, rfl⟩
  | cons a l ih =>
    intro fr
    simp only [List.foldl_cons]
    obtain ⟨h1, h2, h3⟩ := ih ((List.range frame.width).foldl (fun fr2 x =>
      fr2.setColorIndex x a (NearestColorIndex pal (frameAt frame x a) % 256)) fr)
    obtain ⟨g1, g2, g3⟩ := foldRowSet_dims pal frame a (List.range frame.width) fr
    exact ⟨by rw [h1, g1], by rw [h2, g2], by rw [h3, g3]⟩

theorem foldRowsSet_pixfn (pal : List RGBA16) (frame : PFrame) :
    ∀ (n : Nat) (fr : PFrame) (u v : Nat),
      ((List.range n).foldl (fun fr y =>
          (List.range frame.width).foldl (fun fr2 x =>
            fr2.setColorIndex x y (NearestColorIndex pal (frameAt frame x y) % 256)) fr) fr).pixfn u v
        = if v < n ∧ u < frame.width ∧ u < fr.width ∧ v < fr.height
          then NearestColorIndex pal (frameAt frame u v) % 256
          else fr.pixfn u v := by
  intro n
  induction n with
  | zero =>
    intro fr u v
    rw [List.range_zero]
    simp only [List.foldl_nil]
    rw [if_neg]
    rintro ⟨h, -⟩
    omega
  | succ n ih =>
    intro fr u v
    rw [List.range_succ, List.foldl_append, List.foldl_cons, List.foldl_nil]
    rw [foldRowSet_pixfn pal frame n frame.width _ u v]
    obtain ⟨hw, hh, -⟩ := foldRowsSet_dims pal frame (List.range n) fr
    rw [hw, hh, ih fr u v]
    by_cases h1 : u < frame.width ∧ u < fr.width ∧ v = n ∧ n < fr.height
    · rw [if_pos h1]
      obtain ⟨h1a, h1b, h1c, h1d⟩ := h1
      have hT : v < n + 1 ∧ u < frame.width ∧ u < fr.width ∧ v < fr.height := by
        subst h1c; exact ⟨by omega, h1a, h1b, h1d⟩
      rw [if_pos hT, h1c]
    · rw [if_neg h1]
      by_cases h2 : v < n ∧ u < frame.width ∧ u < fr.width ∧ v < fr.height
      · rw [if_pos h2]
        have hT : v < n + 1 ∧ u < frame.width ∧ u < fr.width ∧ v < fr.height := by
          obtain ⟨h2a, h2b, h2c, h2d⟩ := h2
          exact ⟨by omega, h2b, h2c, h2d⟩
        rw [if_pos hT]
      · rw [if_neg h2]
        rw [if_neg]
        rintro ⟨hTa, hTb, hTc, hTd⟩
        by_cases hvn : v = n
        · exact h1 ⟨hTb, hTc, hvn, by omega⟩
        · exact h2 ⟨by omega, hTb, hTc, hTd⟩

theorem applyPalette_width (frame : PFrame) (pal : List RGBA16) :
    (applyPalette frame pal).width = frame.width := by
  unfold applyPalette
  obtain ⟨h, -, -⟩ := foldRowsSet_dims pal frame (List.range frame.height)
    (newPaletted frame.width frame.height pal)
  rw [h]
  rfl

theorem applyPalette_height (frame : PFrame) (pal : List RGBA16) :
    (applyPalette frame pal).height = frame.height := by
  unfold applyPalette
  obtain ⟨-, h, -⟩ := foldRowsSet_dims pal frame (List.range frame.height)
    (newPaletted frame.width frame.height pal)
  rw [h]
  rfl

theorem applyPalette_palette (frame : PFrame) (pal : List RGBA16) :
    (applyPalette frame pal).palette = pal := by
  unfold applyPalette
  obtain ⟨-, -, h⟩ := foldRowsSet_dims pal frame (List.range frame.height)
    (newPaletted frame.width frame.height pal)
  rw [h]
  rfl

theorem applyPalette_pixfn (frame : PFrame) (pal : List RGBA16) (u v : Nat) :
    (applyPalette frame pal).pixfn u v =
      if v < frame.height ∧ u < frame.width
      then NearestColorIndex pal (frameAt frame u v) % 256
      else 0 := by
  unfold applyPalette
  rw [foldRowsSet_pixfn pal frame frame.height (newPaletted frame.width frame.height pal) u v]
  by_cases h : v < frame.height ∧ u < frame.width
  · rw [if_pos ⟨h.1, h.2, h.2, h.1⟩, if_pos h]
  · rw [if_neg (by rintro ⟨h1, h2, -, -⟩; exact h ⟨h1, h2⟩), if_neg h]
    rfl

theorem frameAt_bounds (f : PFrame) (x y : Nat)
    (hfb : ∀ p ∈ f.palette, p.r < 65536 ∧ p.g < 65536 ∧ p.b < 65536) :
    (frameAt f x y).r < 65536 ∧ (frameAt f x y).g < 65536 ∧ (frameAt f x y).b < 65536 := by
  unfold frameAt
  split
  · rcases Nat.lt_or_ge (f.pixfn x y) f.palette.length with h | h
    · exact hfb _ (getD_mem_of_lt _ _ _ h)
    · rw [List.getD_eq_default _ _ h]
      norm_num
  · rcases Nat.lt_or_ge 0 f.palette.length with h | h
    · exact hfb _ (getD_mem_of_lt _ _ _ h)
    · rw [List.getD_eq_default _ _ h]
      norm_num

theorem applyPalette_idem (frame : PFrame) (pal : List RGBA16)
    (hne : pal ≠ []) (hlen : pal.length ≤ 256)
    (hpb : ∀ p ∈ pal, p.r < 65536 ∧ p.g < 65536 ∧ p.b < 65536)
    (hfb : ∀ p ∈ frame.palette, p.r < 65536 ∧ p.g < 65536 ∧ p.b < 65536) :
    applyPalette (applyPalette frame pal) pal = applyPalette frame pal := by
  have h1w := applyPalette_width frame pal
  have h1h := applyPalette_height frame pal
  have h1p := applyPalette_palette frame pal
  refine PFrame.ext ?_ ?_ ?_ ?_
  · exact applyPalette_width _ pal
  · exact applyPalette_height _ pal
  · rw [applyPalette_palette, applyPalette_palette]
  · funext u v
    rw [applyPalette_pixfn, applyPalette_pixfn, h1w, h1h]
    by_cases hin : v < frame.height ∧ u < frame.width
    · rw [if_pos hin, if_pos hin]
      have hcb := frameAt_bounds frame u v hfb
      have hbound : ∀ p ∈ pal, colorDistanceSquared (frameAt frame u v) p < maxInt :=
        fun p hp => colorDistanceSquared_lt_maxInt _ p hcb (hpb p hp)
      obtain ⟨hi1lt, -, -⟩ := NearestColorIndex_spec pal (frameAt frame u v) hne hbound
      have hmod : NearestColorIndex pal (frameAt frame u v) % 256
          = NearestColorIndex pal (frameAt frame u v) := Nat.mod_eq_of_lt (by omega)
      have hAtf : frameAt frame u v = frame.palette.getD (frame.pixfn u v) ⟨0,0,0,0⟩ := by
        unfold frameAt
        rw [if_pos (show u < frame.width ∧ v < frame.height from ⟨hin.2, hin.1⟩)]
      have hAt : frameAt (applyPalette frame pal) u v
          = pal.getD (NearestColorIndex pal (frameAt frame u v)) ⟨0,0,0,0⟩ := by
        unfold frameAt
        rw [if_pos ⟨by rw [applyPalette_width]; exact hin.2,
              by rw [applyPalette_height]; exact hin.1⟩]
        rw [applyPalette_palette, applyPalette_pixfn, if_pos hin, hmod,
          if_pos (show u < frame.width ∧ v < frame.height from ⟨hin.2, hin.1⟩), hAtf]
      rw [hAt, nearest_reapply_eq pal (frameAt frame u v) hne hpb hcb]
    · rw [if_neg hin, if_neg hin]

/-! ## Sorting lemmas for palette extraction -/

namespace imgcolor

instance : IsTotal ColorCount (fun x y => y.count ≤ x.count) :=
  ⟨fun x y => Nat.le_total y.count x.count⟩

instance : IsTrans ColorCount (fun x y => y.count ≤ x.count) :=
  ⟨fun _ _ _ h1 h2 => Nat.le_trans h2 h1⟩

theorem sortByCountDesc_perm (l : List ColorCount) : (sortByCountDesc l).Perm l := by
  unfold sortByCountDesc
  exact List.perm_insertionSort _ l

theorem sortByCountDesc_sorted (l : List ColorCount) :
    (sortByCountDesc l).Sorted (fun x y => y.count ≤ x.count) := by
  unfold sortByCountDesc
  exact List.sorted_insertionSort _ l

theorem ccLess_iff (x y : ColorCount) : ccLess x y = true ↔
    (y.count < x.count ∨ (x.count = y.count ∧
      (x.color.r < y.color.r ∨ (x.color.r = y.color.r ∧
        (x.color.g < y.color.g ∨ (x.color.g = y.color.g ∧
          (x.color.b < y.color.b ∨ (x.color.b = y.color.b ∧
            x.color.a < y.color.a)))))))) := by
  unfold ccLess
  split_ifs with h1 h2 h3 h4 <;> simp <;> omega

theorem ccLess_asymm (x y : ColorCount) : ¬ (ccLess x y = true ∧ ccLess y x = true) := by
  rw [ccLess_iff, ccLess_iff]
  omega

theorem ccLess_trans (x y z : ColorCount) (h1 : ccLess x y = true) (h2 : ccLess y z = true) :
    ccLess x z = true := by
  rw [ccLess_iff] at h1 h2 ⊢
  omega

theorem ccLess_total_eq (x y : ColorCount) (h1 : ccLess x y = false) (h2 : ccLess y x = false) :
    x = y := by
  have n1 : ¬ (ccLess x y = true) := by rw [h1]; simp
  have n2 : ¬ (ccLess y x = true) := by rw [h2]; simp
  rw [ccLess_iff] at n1 n2
  rcases x with ⟨⟨xr, xg, xb, xa⟩, xn⟩
  rcases y with ⟨⟨yr, yg, yb, ya⟩, yn⟩
  simp only [ColorCount.mk.injEq, RGBA16.mk.injEq]
  simp only at n1 n2
  omega

instance : IsAntisymm ColorCount (fun x y => ccLess y x = false) :=
  ⟨fun x y h1 h2 => ccLess_total_eq x y h2 h1⟩

theorem insertStable_perm (c : ColorCount) (l : List ColorCount) :
    (insertStable c l).Perm (c :: l) := by
  induction l with
  | nil => exact List.Perm.refl _
  | cons d rest ih =>
    unfold insertStable
    by_cases h : ccLess c d = true
    · rw [if_pos h]
    · rw [if_neg h]
      exact (ih.cons d).trans (List.Perm.swap c d rest)

theorem insertStable_sorted (c : ColorCount) (l : List ColorCount)
    (hl : l.Sorted (fun x y => ccLess y x = false)) :
    (insertStable c l).Sorted (fun x y => ccLess y x = false) := by
  induction l with
  | nil => simp [insertStable]
  | cons d rest ih =>
    unfold insertStable
    obtain ⟨hd, hrest⟩ := List.sorted_cons.mp hl
    by_cases h : ccLess c d = true
    · rw [if_pos h]
      rw [List.sorted_cons]
      refine ⟨?_, hl⟩
      intro b hb
      rcases List.mem_cons.mp hb with rfl | hbrest
      · cases hdc : ccLess b c
        · rfl
        · exact absurd ⟨h, hdc⟩ (ccLess_asymm c b)
      · cases hbc : ccLess b c
        · rfl
        · exfalso
          have hbd : ccLess b d = true := ccLess_trans b c d hbc h
          have := hd b hbrest
          rw [hbd] at this
          exact absurd this (by simp)
    · rw [if_neg h]
      rw [List.sorted_cons]
      refine ⟨?_, ih hrest⟩
      intro b hb
      have hmem := (insertStable_perm c rest).mem_iff.mp hb
      rcases List.mem_cons.mp hmem with rfl | hbr
      · cases hcd : ccLess b d
        · rfl
        · exact absurd hcd h
      · exact hd b hbr

theorem sortColors_perm (l : List ColorCount) : (sortColors l).Perm l := by
  induction l with
  | nil => exact List.Perm.refl _
  | cons c rest ih =>
    unfold sortColors
    exact (insertStable_perm c (sortColors rest)).trans (ih.cons c)

theorem sortColors_sorted (l : List ColorCount) :
    (sortColors l).Sorted (fun x y => ccLess y x = false) := by
  induction l with
  | nil => simp [sortColors]
  | cons c rest ih =>
    unfold sortColors
    exact insertStable_sorted c (sortColors rest) ih

theorem sortColors_deterministic (l l' : List ColorCount) (h : l.Perm l') :
    sortColors l = sortColors l' :=
  List.eq_of_perm_of_sorted
    ((sortColors_perm l).trans (h.trans (sortColors_perm l').symm))
    (sortColors_sorted l) (sortColors_sorted l')

end imgcolor

namespace imgcolor

theorem ExtractPalette_spec (table : List ColorCount) (mc : Int) (h : mc = -1 ∨ 0 ≤ mc) :
    ∃ p, ExtractPalette table mc = some p
      ∧ p = ((sortByCountDesc table).take (if mc = -1 then table.length
              else mc.toNat)).map ColorCount.color
      ∧ p.length = if mc = -1 then table.length else min mc.toNat table.length := by
  have hclen : (sortByCountDesc table).length = table.length :=
    (sortByCountDesc_perm table).length_eq
  have hkey : ExtractPalette table mc
      = some (((sortByCountDesc table).take (if mc = -1 then table.length
          else mc.toNat)).map ColorCount.color) := by
    unfold ExtractPalette
    dsimp only
    by_cases hm1 : mc = -1
    · subst hm1
      rw [if_pos (show (-1 : Int) = (-1 : Int) from rfl)]
      rw [if_pos (Or.inl rfl)]
      rw [if_neg (by omega)]
      rw [Int.toNat_natCast, hclen]
    · have h0 : 0 ≤ mc := h.resolve_left hm1
      by_cases hbig : ((sortByCountDesc table).length : Int) < mc
      · have hlemc : (sortByCountDesc table).length ≤ mc.toNat := by omega
        rw [if_neg hm1]
        rw [if_pos (Or.inr hbig)]
        rw [if_neg (by omega)]
        rw [Int.toNat_natCast, List.take_length, List.take_of_length_le hlemc]
      · rw [if_neg hm1]
        rw [if_neg (show ¬ (mc = -1 ∨ ((sortByCountDesc table).length : Int) < mc) by
          rintro (hc | hc); exacts [hm1 hc, hbig hc])]
        rw [if_neg (by omega)]
  refine ⟨_, hkey, rfl, ?_⟩
  rw [List.length_map, List.length_take, hclen]
  by_cases hm1 : mc = -1
  · rw [if_pos hm1, if_pos hm1]
    exact Nat.min_self _
  · rw [if_neg hm1, if_neg hm1]

end imgcolor

/-! ## Claim theorems -/

/-- Claim C2: for every frame, row and block of up to 8 columns, the encoder
    emits one mask byte followed by the raw palette-index bytes of every
    pixel of the block in column order regardless of the mask's contents
    (the emitted block in `encodeRowFrom` is `d.1 :: d.2`, and `d.2` lists
    every pixel of the block); in the mask byte, bit `7 - bit` is set
    exactly when a previous frame exists and its pixel at that column and
    row equals the current frame's pixel there; for frame 0 (no previous
    frame) the mask byte is 0x00; and for a final partial block the bits at
    positions past the width are never set (`bit < blockLen` fails there). -/
theorem C2_block_encoding (prev : Option PFrame) (f : PFrame) (width x y : Nat) :
    (encodeBlockData prev f width x y).2
        = (List.range (blockLen width x)).map (fun bit => f.colorIndexAt (x + bit) y)
    ∧ (∀ bit, bit < 8 →
        ((encodeBlockData prev f width x y).1.testBit (7 - bit) = true ↔
          bit < blockLen width x ∧
            ∃ p, prev = some p ∧ p.colorIndexAt (x + bit) y = f.colorIndexAt (x + bit) y))
    ∧ (prev = none → (encodeBlockData prev f width x y).1 = 0) :=
  ⟨encodeBlockData_snd prev f width x y,
   fun bit hb => encodeBlockData_fst_testBit prev f width x y bit hb,
   fun hp => by rw [hp]; exact encodeBlockData_fst_none f width x y⟩

/-- Witness for C2: a concrete 3-wide partial block whose middle pixel
    matches the previous frame. -/
theorem C2_block_encoding_witness :
    ((encodeBlockData (some c2prev) c2f 3 0 0).2
        = (List.range (blockLen 3 0)).map (fun bit => c2f.colorIndexAt (0 + bit) 0))
    ∧ (1 < 8)
    ∧ ((encodeBlockData (some c2prev) c2f 3 0 0).1.testBit (7 - 1) = true ↔
        1 < blockLen 3 0 ∧
          ∃ p, (some c2prev : Option PFrame) = some p
            ∧ p.colorIndexAt (0 + 1) 0 = c2f.colorIndexAt (0 + 1) 0) :=
  ⟨(C2_block_encoding (some c2prev) c2f 3 0 0).1,
   by decide,
   (C2_block_encoding (some c2prev) c2f 3 0 0).2.1 1 (by decide)⟩

/-- Claim C3: for every non-empty palette of well-formed 16-bit colors and
    every well-formed query color, `NearestColorIndex` returns the smallest
    index among the palette entries minimizing `colorDistanceSquared` (the
    squared Euclidean distance over the top 8 bits of R, G, B with alpha
    ignored): the result is in range, its distance is a minimum, every
    strictly smaller index has a strictly larger distance (ties broken by
    the first entry via the strict `<` update), and in particular a
    single-entry palette always yields index 0. -/
theorem C3_nearest_color_index (pal : List RGBA16) (c : RGBA16) (hne : pal ≠ [])
    (hpb : ∀ p ∈ pal, p.r < 65536 ∧ p.g < 65536 ∧ p.b < 65536)
    (hcb : c.r < 65536 ∧ c.g < 65536 ∧ c.b < 65536) :
    NearestColorIndex pal c < pal.length
    ∧ (∀ j, j < pal.length →
        colorDistanceSquared c (pal.getD (NearestColorIndex pal c) ⟨0,0,0,0⟩)
          ≤ colorDistanceSquared c (pal.getD j ⟨0,0,0,0⟩))
    ∧ (∀ j, j < NearestColorIndex pal c →
        colorDistanceSquared c (pal.getD (NearestColorIndex pal c) ⟨0,0,0,0⟩)
          < colorDistanceSquared c (pal.getD j ⟨0,0,0,0⟩))
    ∧ (pal.length = 1 → NearestColorIndex pal c = 0) := by
  have hbound : ∀ p ∈ pal, colorDistanceSquared c p < maxInt :=
    fun p hp => colorDistanceSquared_lt_maxInt c p hcb (hpb p hp)
  obtain ⟨h1, h2, h3⟩ := NearestColorIndex_spec pal c hne hbound
  exact ⟨h1, h2, h3, fun hl => by omega⟩

/-- Witness for C3: the palette `[black, white]` and the query (10,10,10)
    from the spec's own test vector; the hypotheses hold by computation. -/
theorem C3_nearest_color_index_witness :
    (([c3black, c3white] : List RGBA16) ≠ []
      ∧ (∀ p ∈ [c3black, c3white], p.r < 65536 ∧ p.g < 65536 ∧ p.b < 65536)
      ∧ (c3grey.r < 65536 ∧ c3grey.g < 65536 ∧ c3grey.b < 65536))
    ∧ (NearestColorIndex [c3black, c3white] c3grey < ([c3black, c3white] : List RGBA16).length
      ∧ (∀ j, j < ([c3black, c3white] : List RGBA16).length →
          colorDistanceSquared c3grey
              ([c3black, c3white].getD (NearestColorIndex [c3black, c3white] c3grey) ⟨0,0,0,0⟩)
            ≤ colorDistanceSquared c3grey ([c3black, c3white].getD j ⟨0,0,0,0⟩))
      ∧ (∀ j, j < NearestColorIndex [c3black, c3white] c3grey →
          colorDistanceSquared c3grey
              ([c3black, c3white].getD (NearestColorIndex [c3black, c3white] c3grey) ⟨0,0,0,0⟩)
            < colorDistanceSquared c3grey ([c3black, c3white].getD j ⟨0,0,0,0⟩))
      ∧ (([c3black, c3white] : List RGBA16).length = 1 →
          NearestColorIndex [c3black, c3white] c3grey = 0)) :=
  ⟨⟨by decide, by decide, by decide⟩,
   C3_nearest_color_index [c3black, c3white] c3grey (by decide) (by decide) (by decide)⟩

/-- Claim C4 counterexample: for the negative cap -2 (the claim quantifies
    over every negative `maxColors`), `ExtractPalette` does not return all
    distinct colors sorted by frequency — it panics (`make` with a negative
    length, modelled as `none`). -/
theorem C4_counterexample :
    ExtractPalette [c4cc] (-2) = none
    ∧ ExtractPalette [c4cc] (-2) ≠ some [c4cc.color] := by
  constructor
  · decide
  · decide

/-- Claim C4 (amended): `sortByCountDesc` (the model of the `sort.Slice`
    call) permutes the frequency table into an order sorted by descending
    count, and for `maxColors = -1` `ExtractPalette` returns all distinct
    colors in that order, while for `maxColors ≥ 0` it returns exactly the
    first `min(maxColors, distinctColorCount)` colors of that order; every
    other negative `maxColors` panics (`none`). -/
theorem C4_extract_palette (table : List ColorCount) (mc : Int) (h : mc = -1 ∨ 0 ≤ mc) :
    (sortByCountDesc table).Perm table
    ∧ (sortByCountDesc table).Sorted (fun x y => y.count ≤ x.count)
    ∧ ∃ p, ExtractPalette table mc = some p
        ∧ p = ((sortByCountDesc table).take (if mc = -1 then table.length
                else mc.toNat)).map ColorCount.color
        ∧ p.length = if mc = -1 then table.length else min mc.toNat table.length :=
  ⟨sortByCountDesc_perm table, sortByCountDesc_sorted table, ExtractPalette_spec table mc h⟩

/-- Witness for C4: a two-entry table with cap 1. -/
theorem C4_extract_palette_witness :
    ((1 : Int) = -1 ∨ (0 : Int) ≤ 1)
    ∧ ((sortByCountDesc [c4w1, c4w2]).Perm [c4w1, c4w2]
      ∧ (sortByCountDesc [c4w1, c4w2]).Sorted (fun x y => y.count ≤ x.count)
      ∧ ∃ p, ExtractPalette [c4w1, c4w2] 1 = some p
          ∧ p = ((sortByCountDesc [c4w1, c4w2]).take (if (1 : Int) = -1
                  then ([c4w1, c4w2] : List ColorCount).length
                  else (1 : Int).toNat)).map ColorCount.color
          ∧ p.length = if (1 : Int) = -1 then ([c4w1, c4w2] : List ColorCount).length
              else min (1 : Int).toNat ([c4w1, c4w2] : List ColorCount).length) :=
  ⟨Or.inr (by decide), C4_extract_palette [c4w1, c4w2] 1 (Or.inr (by decide))⟩

/-- Claim C5 counterexample: two distinct colors with the same count, fed to
    `ExtractPalette` in the two possible enumeration orders of the same
    frequency table (Go's map iteration order is randomized), produce
    different palettes — the output is not a deterministic function of the
    table and no (R,G,B,A) tie-break is applied. -/
theorem C5_counterexample :
    ([c5A, c5B] : List ColorCount).Perm [c5B, c5A]
    ∧ ExtractPalette [c5A, c5B] 2 ≠ ExtractPalette [c5B, c5A] 2 := by
  constructor
  · decide
  · decide

/-- Claim C5 (amended): the deterministic tie-break lives in `sortColors`
    (`sort.SliceStable` with the count-descending, then ascending
    (R,G,B,A) comparator `ccLess`), not in `ExtractPalette`: `sortColors`
    yields the same output for any two enumerations of the same table, and
    its output is a permutation of the input sorted so that no later entry
    strictly precedes an earlier one under `ccLess` — on equal counts this
    orders colors by ascending (R,G,B,A) 16-bit channels. -/
theorem C5_sortColors_tiebreak (l l' : List ColorCount) (h : l.Perm l') :
    sortColors l = sortColors l'
    ∧ (sortColors l).Perm l
    ∧ (sortColors l).Sorted (fun x y => ccLess y x = false) :=
  ⟨sortColors_deterministic l l' h, sortColors_perm l, sortColors_sorted l⟩

/-- Witness for C5: two equal-count colors in both orders. -/
theorem C5_sortColors_tiebreak_witness :
    ([c5wA, c5wB] : List ColorCount).Perm [c5wB, c5wA]
    ∧ (sortColors [c5wA, c5wB] = sortColors [c5wB, c5wA]
      ∧ (sortColors [c5wA, c5wB]).Perm [c5wA, c5wB]
      ∧ (sortColors [c5wA, c5wB]).Sorted (fun x y => ccLess y x = false)) :=
  ⟨by decide, C5_sortColors_tiebreak [c5wA, c5wB] [c5wB, c5wA] (by decide)⟩

/-- Claim C6 (code bug): decoding a stream truncated inside the final pixel
    block does NOT fail: `skipIdenticalByte` discards the read error and
    `readPixelBlock` ignores the short-read count of `file.Read`, so a
    width-8, height-1, 1-frame stream carrying only 3 of the 8 index bytes
    decodes successfully into a frame whose last five pixels are silently
    zero, where the claim and the spec require an error. -/
theorem C6_truncation_not_closed :
    (readSAGFile c6stream).map
        (fun r => (r.1.length,
          (List.range 8).map (fun x => (r.1.headD frameDefault).colorIndexAt x 0)))
      = some (1, [1, 2, 3, 0, 0, 0, 0, 0]) := by
  decide

/-- Claim C7 counterexample: a stream of 780 zero bytes has a signature of
    three zero bytes, not "SAG" (0x53 0x41 0x47), yet `readSAGFile` decodes
    it successfully (frameCount 0) instead of failing. -/
theorem C7_counterexample :
    (List.replicate 780 (0 : Nat)).take 3 ≠ [83, 65, 71]
    ∧ (readSAGFile (List.replicate 780 (0 : Nat))).isSome = true := by
  constructor
  · decide
  · decide

/-- Claim C7 (amended): the header parse fails exactly when fewer than 780
    bytes are available; the three signature bytes are parsed but never
    compared against "SAG", so any signature is accepted. -/
theorem C7_header_parse (s : List Nat) :
    readSAGHeader s = none ↔ s.length < 780 := by
  unfold readSAGHeader
  by_cases h : s.length < 780
  · rw [if_pos h]
    simp [h]
  · rw [if_neg h]
    simp [h]

/-- Claim C8 counterexample: two frames of different dimensions (1x1 and
    2x2) are encoded without any failure — `writeSAGFile` performs no
    dimension-consistency check (out-of-range pixels of the second frame
    read as index 0). -/
theorem C8_counterexample :
    c8fA.width ≠ c8fB.width
    ∧ (writeSAGFile [c8fA, c8fB] [1] []).isSome = true := by
  constructor
  · decide
  · decide

/-- Claim C8 (amended): `writeSAGFile` validates nothing it was claimed to:
    it fails (by runtime panic, modelled `none`) exactly when the frame
    list is empty, the delay list is empty, or the palette has more than
    256 entries; inconsistent frame dimensions are silently accepted, and
    dimensions, frame counts or delays beyond the 16-bit range are silently
    wrapped modulo 2^16 rather than rejected. -/
theorem C8_encoder_failure_conditions (frames : List PFrame) (delays : List Int)
    (pal : List RGBA16) :
    writeSAGFile frames delays pal = none ↔
      (frames = [] ∨ delays = [] ∨ 256 < pal.length) := by
  match frames, delays with
  | [], _ => simp [writeSAGFile]
  | f :: fs, [] => simp [writeSAGFile]
  | f :: fs, d :: ds =>
    unfold writeSAGFile
    dsimp only
    by_cases h : 256 < pal.length
    · rw [if_pos h]
      simp [h]
    · rw [if_neg h]
      simp [h]

/-- Claim C9 counterexample: with a 258-entry palette (257 reds then blue),
    a blue pixel quantizes to index 257, which the Go narrowing
    `uint8(index)` truncates to 1 (a red); re-applying `applyPalette` maps
    that red to index 0, so the second application changes the frame — the
    claim's "every non-empty palette" fails beyond 256 entries. -/
theorem C9_counterexample :
    c9Pal ≠ []
    ∧ (applyPalette c9Frame c9Pal).colorIndexAt 0 0 = 1
    ∧ (applyPalette (applyPalette c9Frame c9Pal) c9Pal).colorIndexAt 0 0 = 0 := by
  refine ⟨by decide, by decide, by decide⟩

/-- Claim C9 (amended): quantization is idempotent for every non-empty
    palette of at most 256 well-formed colors (so the `uint8` cast is
    lossless) and every frame with a well-formed palette: applying
    `applyPalette` a second time with the same palette returns the first
    application's output unchanged. -/
theorem C9_quantization_idempotent (frame : PFrame) (pal : List RGBA16)
    (hne : pal ≠ []) (hlen : pal.length ≤ 256)
    (hpb : ∀ p ∈ pal, p.r < 65536 ∧ p.g < 65536 ∧ p.b < 65536)
    (hfb : ∀ p ∈ frame.palette, p.r < 65536 ∧ p.g < 65536 ∧ p.b < 65536) :
    applyPalette (applyPalette frame pal) pal = applyPalette frame pal :=
  applyPalette_idem frame pal hne hlen hpb hfb

/-- Witness for C9: a 1x1 black frame against a two-entry palette. -/
theorem C9_quantization_idempotent_witness :
    (c9wP ≠ [] ∧ c9wP.length ≤ 256
      ∧ (∀ p ∈ c9wP, p.r < 65536 ∧ p.g < 65536 ∧ p.b < 65536)
      ∧ (∀ p ∈ c9wF.palette, p.r < 65536 ∧ p.g < 65536 ∧ p.b < 65536))
    ∧ applyPalette (applyPalette c9wF c9wP) c9wP = applyPalette c9wF c9wP :=
  ⟨⟨by decide, by decide, by decide, by decide⟩,
   C9_quantization_idempotent c9wF c9wP (by decide) (by decide) (by decide) (by decide)⟩

/-- Claim C10: `writeSAGFile` computes the header's numeric fields by
    truncating casts: for any non-empty frame and delay lists and a palette
    of at most 256 entries, encoding succeeds and the stored Width, Height
    and FrameCount (as parsed back from the emitted header) equal the first
    frame's dimensions and the frame count modulo 2^16, and the stored
    FrameDelay equals `delays[0] * 10` modulo 2^16 — out-of-range values
    wrap silently instead of being rejected. -/
theorem C10_header_truncating_casts (f0 : PFrame) (rest : List PFrame) (d0 : Int)
    (drest : List Int) (pal : List RGBA16) (hp : pal.length ≤ 256) :
    ∃ bs hdr, writeSAGFile (f0 :: rest) (d0 :: drest) pal = some bs
      ∧ readSAGHeader bs
          = some (hdr, encodeFrames (f0.width % 65536) (f0.height % 65536) none (f0 :: rest))
      ∧ hdr.width = f0.width % 65536
      ∧ hdr.height = f0.height % 65536
      ∧ hdr.frameCount = (f0 :: rest).length % 65536
      ∧ hdr.frameDelay = ((d0 * 10) % 65536).toNat := by
  have henc := writeSAGFile_some f0 rest d0 drest pal hp
  obtain ⟨hdr, hparse, h1, h2, h3, h4⟩ :=
    readSAGHeader_encoded (f0.width % 65536) (f0.height % 65536)
      ((f0 :: rest).length % 65536) ((d0 * 10) % 65536).toNat pal
      (encodeFrames (f0.width % 65536) (f0.height % 65536) none (f0 :: rest)) hp
  exact ⟨_, hdr, henc, hparse, h1, h2, h3, h4⟩

/-- Witness for C10: a 1x1 frame with first GIF delay 6554 hundredths of a
    second, whose stored FrameDelay wraps to 65540 mod 65536 = 4. -/
theorem C10_header_truncating_casts_witness :
    (([] : List RGBA16).length ≤ 256)
    ∧ (((6554 * 10 : Int) % 65536).toNat = 4)
    ∧ (∃ bs hdr, writeSAGFile [c10F] [(6554 : Int)] [] = some bs
        ∧ readSAGHeader bs
            = some (hdr, encodeFrames (c10F.width % 65536) (c10F.height % 65536) none [c10F])
        ∧ hdr.width = c10F.width % 65536
        ∧ hdr.height = c10F.height % 65536
        ∧ hdr.frameCount = ([c10F] : List PFrame).length % 65536
        ∧ hdr.frameDelay = ((6554 * 10 : Int) % 65536).toNat) :=
  ⟨by decide, by decide,
   C10_header_truncating_casts c10F [] 6554 [] [] (by decide)⟩

/-- Claim C1 counterexample: a 1x1 single-frame animation with first delay
    6554 (hundredths of a second) encodes with FrameDelay 65540 mod 65536 =
    4 ms, and decoding returns the delay list [0], not [6554] — the claimed
    round trip of `delays[0]` fails as soon as `delays[0] * 10` exceeds the
    16-bit range. -/
theorem C1_counterexample :
    ((writeSAGFile [c1Frame] [(6554 : Int)] []).bind readSAGFile).map Prod.snd
        = some [(0 : Int)]
    ∧ ((writeSAGFile [c1Frame] [(6554 : Int)] []).bind readSAGFile).map Prod.snd
        ≠ some [(6554 : Int)] := by
  constructor
  · decide
  · decide

/-- Claim C1 (amended): for every non-empty sequence of indexed frames of
    consistent dimensions below 2^16, every non-empty delay list whose
    first entry d0 satisfies 0 ≤ d0 and d0 * 10 < 2^16, fewer than 2^16
    frames, byte-valued pixels, and a palette of at most 256 colors,
    decoding the byte stream produced by encoding succeeds and yields
    frames whose palette-index grids equal the input frames' grids
    pointwise, and a delay list of the same length every entry of which
    equals delays[0] (all timing after the first entry is lost). -/
theorem C1_round_trip (f0 : PFrame) (rest : List PFrame) (d0 : Int) (drest : List Int)
    (pal : List RGBA16)
    (hpal : pal.length ≤ 256)
    (hdim : ∀ f ∈ f0 :: rest, f.width = f0.width ∧ f.height = f0.height)
    (hpix : ∀ f ∈ f0 :: rest, ∀ x, x < f0.width → ∀ y, y < f0.height → f.pixfn x y < 256)
    (hw : f0.width < 65536) (hh : f0.height < 65536)
    (hn : (f0 :: rest).length < 65536)
    (hd0 : 0 ≤ d0) (hd : d0 * 10 < 65536) :
    ∃ bs dfr dd,
      writeSAGFile (f0 :: rest) (d0 :: drest) pal = some bs
      ∧ readSAGFile bs = some (dfr, dd)
      ∧ dfr.length = (f0 :: rest).length
      ∧ (∀ i, i < (f0 :: rest).length → ∀ x y,
          (dfr.getD i frameDefault).colorIndexAt x y
            = ((f0 :: rest).getD i frameDefault).colorIndexAt x y)
      ∧ dd = List.replicate (f0 :: rest).length d0 :=
  roundTripAux f0 rest d0 drest pal hpal hdim hw hh hn hd0 hd

/-- Witness for C1: the spec's own 2x2 two-frame scenario with delays
    [100, 200]; both decoded delays equal 100 and the grids round-trip. -/
theorem C1_round_trip_witness :
    (([] : List RGBA16).length ≤ 256
      ∧ (∀ f ∈ c1w0 :: [c1w1], f.width = c1w0.width ∧ f.height = c1w0.height)
      ∧ (∀ f ∈ c1w0 :: [c1w1], ∀ x, x < c1w0.width → ∀ y, y < c1w0.height →
          f.pixfn x y < 256)
      ∧ (0 : Int) ≤ 100 ∧ (100 * 10 : Int) < 65536)
    ∧ (∃ bs dfr dd,
        writeSAGFile (c1w0 :: [c1w1]) ((100 : Int) :: [(200 : Int)]) [] = some bs
        ∧ readSAGFile bs = some (dfr, dd)
        ∧ dfr.length = (c1w0 :: [c1w1]).length
        ∧ (∀ i, i < (c1w0 :: [c1w1]).length → ∀ x y,
            (dfr.getD i frameDefault).colorIndexAt x y
              = ((c1w0 :: [c1w1]).getD i frameDefault).colorIndexAt x y)
        ∧ dd = List.replicate (c1w0 :: [c1w1]).length (100 : Int)) :=
  ⟨⟨by decide, by decide, by decide, by decide, by decide⟩,
   C1_round_trip c1w0 [c1w1] 100 [(200 : Int)] [] (by decide) (by decide) (by decide)
     (by decide) (by decide) (by decide) (by decide) (by decide)⟩
